import Mathlib

/-!
# Cosine proxy: credential pool, retry loop and stream translator

A shallow embedding of `database/postgres.go`, `upstream/cosine.go` and
`handlers/chat.go`.

* Text is `List Char` (a Go string that holds valid UTF-8), so that every
  definition reduces by evaluation.
* The `accounts` table is a list of rows; every SQL statement may fail, and
  whether it does is an input of the function that issues it.
* The rotation counter is a `Nat` kept below `2 ^ 64` by an explicit `%`.
* What the handler does not control (the upstream's answers, the clock, the
  generated ids) is an input, `Env`.
* The goroutine of `ParseCosineStream` and its two channels are a transition
  system, `ChanState` with `produceStep`. `CollectFullResponse` only receives
  from one channel at a time, so it is given as a function and shown to be what
  every schedule returns; `handleStreamResponse` selects over both channels, so
  it is given as the transition system itself, run under a schedule.
-/

namespace Cosine

/-! ## models/types.go -/

/-- Text of the program: the characters of a Go string. -/
abbrev Str := List Char

/-- The struct `models.Account`; the two timestamps are clock readings. -/
structure Account where
  ID : Int
  Auth : Str
  TeamID : Str
  LinuxdoID : Option Str
  IsActive : Bool
  CreatedAt : Nat
  UpdatedAt : Nat
deriving DecidableEq, Repr

/-- The struct `models.OpenAIMessage`. -/
structure OpenAIMessage where
  Role : Str
  Content : Str
deriving DecidableEq, Repr

/-- The struct `models.OpenAIChatRequest`. -/
structure OpenAIChatRequest where
  Model : Str
  Messages : List OpenAIMessage
  Stream : Bool
deriving DecidableEq, Repr

/-- The struct `models.CosineMessage`. -/
structure CosineMessage where
  Content : Str
  Role : Str
  ID : Str
  CreatedAt : Str
deriving DecidableEq, Repr

/-- The struct `models.CosineChatRequest`. -/
structure CosineChatRequest where
  ID : Str
  Messages : List CosineMessage
  Model : Str
  TeamID : Str
  Visibility : Str
deriving DecidableEq, Repr

/-- The anonymous struct `Usage` of `models.CosineFinishEvent`. -/
structure CosineUsage where
  PromptTokens : Option Int
  CompletionTokens : Option Int
deriving DecidableEq, Repr

/-- The struct `models.CosineFinishEvent`. -/
structure CosineFinishEvent where
  FinishReason : Str
  Usage : CosineUsage
  IsContinued : Bool
deriving DecidableEq, Repr

/-- The struct `models.OpenAIDelta`. -/
structure OpenAIDelta where
  Role : Str
  Content : Str
deriving DecidableEq, Repr

/-- The struct `models.OpenAIUsage`. -/
structure OpenAIUsage where
  PromptTokens : Int
  CompletionTokens : Int
  TotalTokens : Int
deriving DecidableEq, Repr

/-- The struct `models.OpenAIChoice`; a nil pointer is `none`. -/
structure OpenAIChoice where
  Index : Int
  Message : Option OpenAIMessage
  Delta : Option OpenAIDelta
  FinishReason : Option Str
deriving DecidableEq, Repr

/-- The struct `models.OpenAIChatResponse`. -/
structure OpenAIChatResponse where
  ID : Str
  Object : Str
  Created : Int
  Model : Str
  Choices : List OpenAIChoice
  Usage : Option OpenAIUsage
deriving DecidableEq, Repr

/-- The zero value of `models.CosineFinishEvent`. -/
def CosineFinishEvent.zero : CosineFinishEvent :=
  { FinishReason := [], Usage := { PromptTokens := none, CompletionTokens := none },
    IsContinued := false }

/-! ## The Go library functions the stream decoder calls

`strings.Index`, `strings.TrimSpace` and `encoding/json.Unmarshal` for the two
targets the program decodes into (a `string` and a `CosineFinishEvent`). -/

/-- Go's `strings.Index(s, string(c))`: position of the first `c`, or `-1`. -/
def Index (s : Str) (c : Char) : Int :=
  if c ∈ s then (s.indexOf c : Int) else -1

/-- Go's `unicode.IsSpace`. -/
def isSpace (c : Char) : Bool :=
  let n := c.toNat
  (9 ≤ n ∧ n ≤ 13) ∨ n = 32 ∨ n = 0x85 ∨ n = 0xA0 ∨ n = 0x1680 ∨ (0x2000 ≤ n ∧ n ≤ 0x200A) ∨
    n = 0x2028 ∨ n = 0x2029 ∨ n = 0x202F ∨ n = 0x205F ∨ n = 0x3000

/-- Go's `strings.TrimSpace`. -/
def TrimSpace (s : Str) : Str :=
  (((s.dropWhile isSpace).reverse).dropWhile isSpace).reverse

/-- A JSON token. -/
inductive Tok where
  | lbrace | rbrace | lbrack | rbrack | colon | comma
  | str (s : Str)
  | num (raw : Str)
  | litTrue | litFalse | litNull
deriving DecidableEq, Repr

/-- One element of a string literal: a character, or a `\uXXXX` code unit. -/
inductive StrItem where
  | ch (c : Char)
  | unit (u : Nat)
deriving DecidableEq, Repr

/-- Where the lexer stands inside a number literal. -/
inductive NumPhase where
  | minus | zero | int | dot | frac | e | esign | exp
deriving DecidableEq, Repr

/-- State of the lexer; accumulated text is kept reversed. -/
inductive LexState where
  | start
  | str (acc : List StrItem)
  | esc (acc : List StrItem)
  | uni (acc : List StrItem) (digits : Nat) (value : Nat)
  | num (raw : Str) (ph : NumPhase)
  | word (rest : Str) (tok : Tok)
deriving DecidableEq, Repr

/-- The replacement character U+FFFD. -/
def replacementChar : Char := Char.ofNat 0xFFFD

/-- Go's `unquote` on the elements of a literal: a high surrogate followed by a
low one is one character, any other surrogate unit is U+FFFD. `pending` is a
high surrogate waiting for its partner. -/
def unquoteItems : Option Nat → List StrItem → Str
  | none, [] => []
  | some _, [] => [replacementChar]
  | none, .ch c :: r => c :: unquoteItems none r
  | some _, .ch c :: r => replacementChar :: c :: unquoteItems none r
  | none, .unit u :: r =>
    if 0xD800 ≤ u ∧ u < 0xDC00 then unquoteItems (some u) r
    else if 0xDC00 ≤ u ∧ u < 0xE000 then replacementChar :: unquoteItems none r
    else Char.ofNat u :: unquoteItems none r
  | some h, .unit u :: r =>
    if 0xDC00 ≤ u ∧ u < 0xE000 then
      Char.ofNat ((h - 0xD800) * 0x400 + (u - 0xDC00) + 0x10000) :: unquoteItems none r
    else if 0xD800 ≤ u ∧ u < 0xDC00 then replacementChar :: unquoteItems (some u) r
    else replacementChar :: Char.ofNat u :: unquoteItems none r

/-- Value of a hexadecimal digit. -/
def hexVal (c : Char) : Option Nat :=
  let n := c.toNat
  if 48 ≤ n ∧ n ≤ 57 then some (n - 48)
  else if 97 ≤ n ∧ n ≤ 102 then some (n - 87)
  else if 65 ≤ n ∧ n ≤ 70 then some (n - 55)
  else none

/-- Whether `c` is a decimal digit. -/
def isDigit (c : Char) : Bool := 48 ≤ c.toNat ∧ c.toNat ≤ 57

/-- The lexer between tokens: JSON whitespace is skipped, a punctuation mark is
a token, and a quote, a digit, `-`, `t`, `f` or `n` opens a longer token. -/
def lexStart (c : Char) : Option (LexState × List Tok) :=
  if c = ' ' ∨ c = '\t' ∨ c = '\r' ∨ c = '\n' then some (.start, [])
  else if c = '{' then some (.start, [.lbrace])
  else if c = '}' then some (.start, [.rbrace])
  else if c = '[' then some (.start, [.lbrack])
  else if c = ']' then some (.start, [.rbrack])
  else if c = ':' then some (.start, [.colon])
  else if c = ',' then some (.start, [.comma])
  else if c = '"' then some (.str [], [])
  else if c = '-' then some (.num [c] .minus, [])
  else if c = '0' then some (.num [c] .zero, [])
  else if isDigit c then some (.num [c] .int, [])
  else if c = 't' then some (.word ['r', 'u', 'e'] .litTrue, [])
  else if c = 'f' then some (.word ['a', 'l', 's', 'e'] .litFalse, [])
  else if c = 'n' then some (.word ['u', 'l', 'l'] .litNull, [])
  else none

/-- Whether a number literal may end in this phase. -/
def NumPhase.accepting : NumPhase → Bool
  | .zero | .int | .frac | .exp => true
  | _ => false

/-- The next phase of a number literal on `c`, if `c` continues it. -/
def NumPhase.next (ph : NumPhase) (c : Char) : Option NumPhase :=
  match ph with
  | .minus => if c = '0' then some .zero else if isDigit c then some .int else none
  | .zero => if c = '.' then some .dot else if c = 'e' ∨ c = 'E' then some .e else none
  | .int =>
    if isDigit c then some .int else if c = '.' then some .dot
    else if c = 'e' ∨ c = 'E' then some .e else none
  | .dot => if isDigit c then some .frac else none
  | .frac => if isDigit c then some .frac else if c = 'e' ∨ c = 'E' then some .e else none
  | .e => if c = '+' ∨ c = '-' then some .esign else if isDigit c then some .exp else none
  | .esign => if isDigit c then some .exp else none
  | .exp => if isDigit c then some .exp else none

/-- One character of input: the new lexer state and the tokens completed. -/
def lexStep (st : LexState) (c : Char) : Option (LexState × List Tok) :=
  match st with
  | .start => lexStart c
  | .str acc =>
    if c = '"' then some (.start, [.str (unquoteItems none acc.reverse)])
    else if c = '\\' then some (.esc acc, [])
    else if c.toNat < 0x20 then none
    else some (.str (.ch c :: acc), [])
  | .esc acc =>
    if c = 'b' then some (.str (.ch (Char.ofNat 8) :: acc), [])
    else if c = 'f' then some (.str (.ch (Char.ofNat 12) :: acc), [])
    else if c = 'n' then some (.str (.ch '\n' :: acc), [])
    else if c = 'r' then some (.str (.ch '\r' :: acc), [])
    else if c = 't' then some (.str (.ch '\t' :: acc), [])
    else if c = '\\' ∨ c = '/' ∨ c = '"' then some (.str (.ch c :: acc), [])
    else if c = 'u' then some (.uni acc 0 0, [])
    else none
  | .uni acc digits value =>
    match hexVal c with
    | none => none
    | some d =>
      if digits = 3 then some (.str (.unit (value * 16 + d) :: acc), [])
      else some (.uni acc (digits + 1) (value * 16 + d), [])
  | .num raw ph =>
    match ph.next c with
    | some ph1 => some (.num (c :: raw) ph1, [])
    | none =>
      if ph.accepting then
        match lexStart c with
        | some (st1, toks) => some (st1, .num raw.reverse :: toks)
        | none => none
      else none
  | .word rest tok =>
    match rest with
    | [] => none
    | [x] => if c = x then some (.start, [tok]) else none
    | x :: more => if c = x then some (.word more tok, []) else none

/-- The tokens of a text, or `none` when it is not a sequence of JSON tokens. -/
def lexFrom : LexState → Str → Option (List Tok)
  | .start, [] => some []
  | .num raw ph, [] => if ph.accepting then some [.num raw.reverse] else none
  | _, [] => none
  | st, c :: rest =>
    match lexStep st c with
    | none => none
    | some (st1, toks) =>
      match lexFrom st1 rest with
      | none => none
      | some more => some (toks ++ more)

/-- A JSON value. -/
inductive JSON where
  | null
  | bool (b : Bool)
  | num (raw : Str)
  | str (s : Str)
  | arr (elems : List JSON)
  | obj (members : List (Str × JSON))

/-- An array or object under construction; what is done is kept reversed, and
`key` is the member name whose value is awaited. -/
inductive Frame where
  | arr (done : List JSON)
  | obj (done : List (Str × JSON)) (key : Option Str)

/-- What the parser may see next. -/
inductive Expect where
  | value
  | valueOrClose
  | keyOrClose
  | key
  | colon
  | commaOrClose
  | finished (v : JSON)

/-- Nesting limit of Go's scanner. -/
def maxNestingDepth : Nat := 10000

/-- A completed value goes to the innermost open array or object, or is the
result. -/
def deliver (v : JSON) : List Frame → Option (List Frame × Expect)
  | [] => some ([], .finished v)
  | .arr done :: stack => some (.arr (v :: done) :: stack, .commaOrClose)
  | .obj done (some k) :: stack => some (.obj ((k, v) :: done) none :: stack, .commaOrClose)
  | .obj _ none :: _ => none

/-- A token where a value may start. -/
def startValue (stack : List Frame) (t : Tok) : Option (List Frame × Expect) :=
  match t with
  | .str s => deliver (.str s) stack
  | .num raw => deliver (.num raw) stack
  | .litTrue => deliver (.bool true) stack
  | .litFalse => deliver (.bool false) stack
  | .litNull => deliver .null stack
  | .lbrace =>
    if stack.length + 1 ≤ maxNestingDepth then some (.obj [] none :: stack, .keyOrClose) else none
  | .lbrack =>
    if stack.length + 1 ≤ maxNestingDepth then some (.arr [] :: stack, .valueOrClose) else none
  | _ => none

/-- A closing bracket or brace: the innermost array or object is complete. -/
def closeFrame (stack : List Frame) (t : Tok) : Option (List Frame × Expect) :=
  match stack, t with
  | .arr done :: rest, .rbrack => deliver (.arr done.reverse) rest
  | .obj done none :: rest, .rbrace => deliver (.obj done.reverse) rest
  | _, _ => none

/-- One token of input. -/
def parseStep (stack : List Frame) (e : Expect) (t : Tok) : Option (List Frame × Expect) :=
  match e with
  | .value => startValue stack t
  | .valueOrClose => if t = .rbrack then closeFrame stack t else startValue stack t
  | .keyOrClose =>
    match stack, t with
    | .obj done none :: rest, .str k => some (.obj done (some k) :: rest, .colon)
    | _, .rbrace => closeFrame stack t
    | _, _ => none
  | .key =>
    match stack, t with
    | .obj done none :: rest, .str k => some (.obj done (some k) :: rest, .colon)
    | _, _ => none
  | .colon => if t = .colon then some (stack, .value) else none
  | .commaOrClose =>
    match stack, t with
    | .arr _ :: _, .comma => some (stack, .value)
    | .obj _ none :: _, .comma => some (stack, .key)
    | _, _ => closeFrame stack t
  | .finished _ => none

/-- The value a token sequence denotes, or `none` when it is not one JSON
value. -/
def parseToks : List Frame → Expect → List Tok → Option JSON
  | [], .finished v, [] => some v
  | _, _, [] => none
  | stack, e, t :: rest =>
    match parseStep stack e t with
    | none => none
    | some (stack1, e1) => parseToks stack1 e1 rest

/-- The JSON value of a text; `none` is a syntax error. -/
def parseJSON (data : Str) : Option JSON :=
  match lexFrom .start data with
  | none => none
  | some toks => parseToks [] .value toks

/-- Go's `json.Unmarshal(data, &content)` for `var content string`: a string
literal is stored, `null` leaves the empty string, and anything else is an
error (`none`). -/
def unmarshalString (data : Str) : Option Str :=
  match parseJSON data with
  | some (.str s) => some s
  | some .null => some []
  | _ => none

/-- Case folding of one character, as far as it meets an ASCII letter: the
lower-case letters, U+017F (long s) and U+212A (Kelvin sign). -/
def foldChar (c : Char) : Char :=
  if 97 ≤ c.toNat ∧ c.toNat ≤ 122 then Char.ofNat (c.toNat - 32)
  else if c.toNat = 0x17F then 'S'
  else if c.toNat = 0x212A then 'K'
  else c

/-- Whether an object key names the struct field tagged `name`: equality up to
case folding. -/
def keyMatches (key name : Str) : Bool := key.map foldChar = name.map foldChar

/-- A JSON number stored into an `int`: decimal digits with an optional minus
sign, within 64 bits. -/
def intOfNumber (raw : Str) : Option Int :=
  let digits := if raw.head? = some '-' then raw.drop 1 else raw
  if digits ≠ [] ∧ digits.all isDigit then
    let n : Nat := digits.foldl (fun acc c => acc * 10 + (c.toNat - 48)) 0
    let v : Int := if raw.head? = some '-' then -(n : Int) else (n : Int)
    if -((2 : Int) ^ 63) ≤ v ∧ v < (2 : Int) ^ 63 then some v else none
  else none

/-- A value stored into a `*int` field: `null` is nil, an integer is stored,
anything else is an error. -/
def storeIntPtr (v : JSON) : Option (Option Int) :=
  match v with
  | .null => some none
  | .num raw => (intOfNumber raw).map some
  | _ => none

/-- One member of the `usage` object stored into the struct. -/
def storeUsageField (u : CosineUsage) (m : Str × JSON) : Option CosineUsage :=
  if keyMatches m.1 "promptTokens".data then
    (storeIntPtr m.2).map (fun p => { u with PromptTokens := p })
  else if keyMatches m.1 "completionTokens".data then
    (storeIntPtr m.2).map (fun p => { u with CompletionTokens := p })
  else some u

/-- One member of the top-level object stored into the struct: a value of the
wrong type is an error, `null` changes nothing, an unknown key is skipped. -/
def storeFinishField (f : CosineFinishEvent) (m : Str × JSON) : Option CosineFinishEvent :=
  if keyMatches m.1 "finishReason".data then
    match m.2 with
    | .str s => some { f with FinishReason := s }
    | .null => some f
    | _ => none
  else if keyMatches m.1 "usage".data then
    match m.2 with
    | .obj ms =>
      (ms.foldl (fun acc x => acc.bind (fun u => storeUsageField u x)) (some f.Usage)).map
        (fun u => { f with Usage := u })
    | .null => some f
    | _ => none
  else if keyMatches m.1 "isContinued".data then
    match m.2 with
    | .bool b => some { f with IsContinued := b }
    | .null => some f
    | _ => none
  else some f

/-- Go's `json.Unmarshal(data, &finish)` for `var finish models.CosineFinishEvent`:
the members of an object are stored in order, `null` leaves the zero value, and
a syntax error, a non-object or a member of the wrong type is an error
(`none`). -/
def unmarshalFinish (data : Str) : Option CosineFinishEvent :=
  match parseJSON data with
  | some (.obj ms) =>
    ms.foldl (fun acc x => acc.bind (fun f => storeFinishField f x)) (some CosineFinishEvent.zero)
  | some .null => some CosineFinishEvent.zero
  | _ => none

/-! ## upstream/cosine.go -/

/-- The struct `upstream.StreamEvent`; `Kind` is its field `Type`. -/
structure StreamEvent where
  Kind : Str
  Content : Str
  Finish : Option CosineFinishEvent
deriving DecidableEq, Repr

/-- Source function `parseLine`: the event of one line, `none` for the nil
pointer. -/
def parseLine (line : Str) : Option StreamEvent :=
  let colonIdx := Index line ':'
  if colonIdx = -1 ∨ colonIdx = 0 then none
  else
    let pfx := TrimSpace (line.take colonIdx.toNat)
    let data := TrimSpace (line.drop (colonIdx.toNat + 1))
    if pfx = "0".data then
      match unmarshalString data with
      | some content => some { Kind := "content".data, Content := content, Finish := none }
      | none => some { Kind := "content".data, Content := data, Finish := none }
    else if pfx = "e".data then
      match unmarshalFinish data with
      | none =>
        some { Kind := "finish".data, Content := [],
               Finish := some { CosineFinishEvent.zero with FinishReason := "stop".data } }
      | some finish => some { Kind := "finish".data, Content := [], Finish := some finish }
    else if pfx = "d".data then
      match unmarshalFinish data with
      | none => none
      | some finish => some { Kind := "finish".data, Content := [], Finish := some finish }
    else none

/-- What ends a scan with an error: a read error of the underlying reader
(its message), or `bufio.ErrTooLong`. -/
inductive ScanError where
  | read (msg : Str)
  | tooLong
deriving DecidableEq, Repr

/-- An `io.Reader`: the text it delivers, and the error that ends it (`none`
for a clean `io.EOF`). -/
structure Reader where
  data : Str
  err : Option Str
deriving DecidableEq, Repr

/-- Go's `bufio.MaxScanTokenSize`. -/
def MaxScanTokenSize : Nat := 65536

/-- Length in bytes of a text. -/
def byteLen (s : Str) : Nat := (s.map Char.utf8Size).sum

/-- Go's `dropCR` of `bufio`: one trailing carriage return is removed. -/
def dropCR (line : Str) : Str :=
  if line.getLast? = some '\r' then line.dropLast else line

/-- The lines `bufio.ScanLines` cuts a text into, terminators removed, the
carriage return still there; `cur` is the line being read, reversed. A last
line without terminator counts when it is not empty. -/
def rawLines : Str → Str → List Str
  | cur, [] => if cur = [] then [] else [cur.reverse]
  | cur, c :: rest => if c = '\n' then cur.reverse :: rawLines [] rest else rawLines (c :: cur) rest

/-- The tokens successive `scanner.Scan()` calls return, and `scanner.Err()`
after the last: a line that does not fit the buffer stops the scan with
`ErrTooLong`, and otherwise the error is the reader's. -/
def scanTokens (readErr : Option Str) : List Str → List Str × Option ScanError
  | [] => ([], readErr.map ScanError.read)
  | l :: ls =>
    if MaxScanTokenSize ≤ byteLen l then ([], some .tooLong)
    else ((dropCR l) :: (scanTokens readErr ls).1, (scanTokens readErr ls).2)

/-- A `bufio.Scanner` with the default split function run over a reader. -/
def Scanner (reader : Reader) : List Str × Option ScanError :=
  scanTokens reader.err (rawLines [] reader.data)

/-- The events the decoding goroutine of `ParseCosineStream` sends for a list
of scanned lines, in order: empty lines and lines without event are skipped. -/
def lineEvents (lines : List Str) : List StreamEvent :=
  lines.filterMap (fun line => if line.length = 0 then none else parseLine line)

/-- Source function `ParseCosineStream`, as the two sequences its channels
carry: the events sent on `eventCh` before it is closed, and the error sent on
`errCh`, if any. -/
def ParseCosineStream (reader : Reader) : List StreamEvent × Option ScanError :=
  (lineEvents (Scanner reader).1, (Scanner reader).2)

/-- Where the decoding goroutine of `ParseCosineStream` stands: in the scan
loop, before the deferred `close(errCh)`, before the deferred `close(eventCh)`,
or gone. -/
inductive ProducerPC where
  | scanning
  | closeErr
  | closeEvent
  | exited
deriving DecidableEq, Repr

/-- Capacity of `eventCh`. -/
def eventChCap : Nat := 100

/-- The decoding goroutine of `ParseCosineStream` and its two channels: the
lines the scanner has yet to return and its final error, the goroutine's
position, and the buffers of `eventCh` (oldest first) and `errCh` with their
closed flags. -/
structure ChanState where
  lines : List Str
  scanErr : Option ScanError
  pc : ProducerPC
  eventCh : List StreamEvent
  eventClosed : Bool
  errCh : Option ScanError
  errClosed : Bool
deriving DecidableEq, Repr

/-- The state when `ParseCosineStream` returns its channels. -/
def ChanState.init (reader : Reader) : ChanState :=
  { lines := (Scanner reader).1, scanErr := (Scanner reader).2, pc := .scanning, eventCh := [],
    eventClosed := false, errCh := none, errClosed := false }

/-- One step of the goroutine; `none` when it cannot move (a send on a full
`eventCh`, or the goroutine is gone). After the last line the error, if any, is
sent on `errCh`; the deferred calls then close `errCh` first and `eventCh`
second. -/
def produceStep (s : ChanState) : Option ChanState :=
  match s.pc with
  | .scanning =>
    match s.lines with
    | line :: rest =>
      if line.length = 0 then some { s with lines := rest }
      else
        match parseLine line with
        | none => some { s with lines := rest }
        | some event =>
          if s.eventCh.length < eventChCap then
            some { s with lines := rest, eventCh := s.eventCh ++ [event] }
          else none
    | [] =>
      match s.scanErr with
      | some err => some { s with errCh := some err, pc := .closeErr }
      | none => some { s with pc := .closeErr }
  | .closeErr => some { s with errClosed := true, pc := .closeEvent }
  | .closeEvent => some { s with eventClosed := true, pc := .exited }
  | .exited => none

/-- The loop body of `CollectFullResponse`: `content` is the builder and
`finishEvent` the pointer. -/
def collectStep (acc : Str × Option CosineFinishEvent) (event : StreamEvent) :
    Str × Option CosineFinishEvent :=
  if event.Kind = "content".data then (acc.1 ++ event.Content, acc.2)
  else if event.Kind = "finish".data then (acc.1, event.Finish)
  else acc

/-- Source function `CollectFullResponse`: the event channel is drained to its
close, then the error channel is read. The three results are the text, the
finish event and the error. -/
def CollectFullResponse (reader : Reader) : Str × Option CosineFinishEvent × Option ScanError :=
  let acc := (ParseCosineStream reader).1.foldl collectStep ([], none)
  match (ParseCosineStream reader).2 with
  | some err => ([], none, some err)
  | none => (acc.1, acc.2, none)

/-- Where `CollectFullResponse` stands: in `for event := range eventCh`, at
`<-errCh`, or returned with its three results. -/
inductive CollectPC where
  | ranging
  | readErr
  | returned (result : Str × Option CosineFinishEvent × Option ScanError)
deriving DecidableEq, Repr

/-- The collector of `CollectFullResponse` next to the goroutine it reads from:
the goroutine and its channels, the builder `content` with the pointer
`finishEvent`, and the position of the collector. -/
structure CollectState where
  chan : ChanState
  acc : Str × Option CosineFinishEvent
  pc : CollectPC
deriving DecidableEq, Repr

/-- The state when `CollectFullResponse` has called `ParseCosineStream`. -/
def CollectState.init (reader : Reader) : CollectState :=
  { chan := ChanState.init reader, acc := ([], none), pc := .ranging }

/-- What may happen next: the goroutine moves on, or the collector does. -/
inductive CollectMove where
  | produce
  | collect
deriving DecidableEq, Repr

/-- One step of the collector; `none` when it is blocked on a receive or has
returned. The range loop takes the oldest buffered event, and ends when
`eventCh` is closed and empty; the receive from `errCh` then yields the error
sent, or nil once `errCh` is closed. -/
def collectRecvStep (s : CollectState) : Option CollectState :=
  match s.pc with
  | .ranging =>
    match s.chan.eventCh with
    | event :: rest =>
      some { s with chan := { s.chan with eventCh := rest }, acc := collectStep s.acc event }
    | [] => if s.chan.eventClosed then some { s with pc := .readErr } else none
  | .readErr =>
    match s.chan.errCh with
    | some err =>
      some { s with chan := { s.chan with errCh := none }, pc := .returned ([], none, some err) }
    | none =>
      if s.chan.errClosed then some { s with pc := .returned (s.acc.1, s.acc.2, none) }
      else none
  | .returned _ => none

/-- One move of the goroutine or of the collector. -/
def collectMoveStep (m : CollectMove) (s : CollectState) : Option CollectState :=
  match m with
  | .produce => (produceStep s.chan).map (fun c => { s with chan := c })
  | .collect => collectRecvStep s

/-- The steps of `CollectFullResponse` under a schedule of the goroutine and the
collector; `none` when a move of the schedule is not possible. -/
def runCollect : List CollectMove → CollectState → Option CollectState
  | [], s => some s
  | m :: ms, s =>
    match collectMoveStep m s with
    | none => none
    | some s1 => runCollect ms s1

/-- The schedule in which the collector takes each event as soon as it is
sent: one goroutine step per line, followed by a collector step when the line
has an event, then the three last steps of the goroutine and the two last
receives of the collector. -/
def lockstepSchedule : List Str → List CollectMove
  | [] => [.produce, .produce, .produce, .collect, .collect]
  | line :: rest =>
    (if line.length = 0 then [.produce]
     else match parseLine line with
       | none => [.produce]
       | some _ => [.produce, .collect]) ++ lockstepSchedule rest

/-- What holds of every reachable state of the collector for a reader: the
events consumed, those buffered and those of the lines not yet scanned make up
the events of the reader, the accumulator is the fold of the events consumed,
the channels are where the goroutine's position says, and a result returned is
that of `CollectFullResponse`. -/
def CollectInv (reader : Reader) (s : CollectState) : Prop :=
  (∃ consumed, consumed ++ s.chan.eventCh ++ lineEvents s.chan.lines =
      (ParseCosineStream reader).1 ∧ s.acc = consumed.foldl collectStep ([], none)) ∧
  s.chan.scanErr = (ParseCosineStream reader).2 ∧
  (match s.chan.pc with
   | .scanning => s.chan.eventClosed = false ∧ s.chan.errClosed = false ∧ s.chan.errCh = none
   | .closeErr =>
     s.chan.lines = [] ∧ s.chan.eventClosed = false ∧ s.chan.errClosed = false ∧
       s.chan.errCh = s.chan.scanErr
   | .closeEvent =>
     s.chan.lines = [] ∧ s.chan.eventClosed = false ∧ s.chan.errClosed = true ∧
       s.chan.errCh = s.chan.scanErr
   | .exited =>
     s.chan.lines = [] ∧ s.chan.eventClosed = true ∧ s.chan.errClosed = true ∧
       (s.chan.errCh = s.chan.scanErr ∨ ∃ r, s.pc = .returned r)) ∧
  (s.pc = .readErr → s.chan.eventCh = [] ∧ s.chan.eventClosed = true) ∧
  (∀ r, s.pc = .returned r → r = CollectFullResponse reader)

/-! ## database/postgres.go -/

/-- Errors the database package returns. -/
inductive DBError where
  | sql
  | noActiveAccounts
deriving DecidableEq, Repr

/-- Package state of `database`: the rows of table `accounts` behind `db`, and
the rotation counter `counter` (a `uint64`). -/
structure Database where
  accounts : List Account
  counter : Nat
deriving DecidableEq, Repr

/-- The order of `ORDER BY id`. -/
def byID (a b : Account) : Prop := a.ID ≤ b.ID

instance : DecidableRel byID := fun a b => inferInstanceAs (Decidable (a.ID ≤ b.ID))

/-- Source function `getActiveAccounts`: the rows `WHERE is_active = true ORDER
BY id`; `queryFails` says whether the query returns an error. -/
def getActiveAccounts (queryFails : Bool) (db : Database) : Except DBError (List Account) :=
  if queryFails then .error .sql
  else .ok ((db.accounts.filter (fun a => a.IsActive)).insertionSort byID)

/-- Source function `GetNextAccount`: round-robin selection. The counter is
incremented (`atomic.AddUint64`, wrapping at `2 ^ 64`) only when an account is
served. -/
def GetNextAccount (queryFails : Bool) (db : Database) : Except DBError Account × Database :=
  match getActiveAccounts queryFails db with
  | .error e => (.error e, db)
  | .ok accounts =>
    if h : accounts.length = 0 then (.error .noActiveAccounts, db)
    else
      let c := (db.counter + 1) % 2 ^ 64
      let idx := c % accounts.length
      (.ok (accounts.get ⟨idx, Nat.mod_lt _ (Nat.pos_of_ne_zero h)⟩), { db with counter := c })

/-- Source function `DeactivateAccount`: `UPDATE accounts SET is_active = false,
updated_at = NOW() WHERE id = $1`; `execFails` says whether the statement
returns an error and `now` is the reading of `NOW()`. -/
def DeactivateAccount (execFails : Bool) (now : Nat) (accountID : Int) (db : Database) :
    Except DBError Unit × Database :=
  if execFails then (.error .sql, db)
  else
    (.ok (),
     { db with accounts := db.accounts.map (fun a =>
        if a.ID = accountID then { a with IsActive := false, UpdatedAt := now } else a) })

/-- Source function `GetAccountCount`: `SELECT COUNT(*) FROM accounts WHERE
is_active = true`. -/
def GetAccountCount (queryFails : Bool) (db : Database) : Except DBError Int :=
  if queryFails then .error .sql
  else .ok ((db.accounts.filter (fun a => a.IsActive)).length : Int)

/-- Source function `CreateAccount`: the `INSERT ... RETURNING`. The declaration
of table `accounts` is not among the sources: `id` is its key, filled in by the
database, so the generated value `newID` is an input, and an insert whose id
is already taken fails like any other failing statement (`queryFails`). -/
def CreateAccount (queryFails : Bool) (newID : Int) (now : Nat) (auth teamID : Str)
    (linuxdoID : Int) (db : Database) : Except DBError Account × Database :=
  if queryFails ∨ newID ∈ db.accounts.map (fun a => a.ID) then (.error .sql, db)
  else
    let acc : Account :=
      { ID := newID, Auth := auth, TeamID := teamID,
        LinuxdoID := some (toString linuxdoID).data,
        IsActive := true, CreatedAt := now, UpdatedAt := now }
    (.ok acc, { db with accounts := db.accounts ++ [acc] })

/-! ## handlers/chat.go -/

/-- The constant `maxRetries`. -/
def maxRetries : Nat := 3

/-- An `*http.Response`, as far as the handler reads it. -/
structure Response where
  StatusCode : Nat
  Body : Reader
deriving DecidableEq, Repr

/-- What the handler does not control: whether the SQL statement of the i-th
loop iteration fails (`queryFails` for `GetNextAccount`, `execFails` for
`DeactivateAccount`), the reading of `NOW()` there, the result of
`SendChatRequest` in iteration i for a request and a credential (`none` is a
non-nil error with a nil response), the strings `generateID` returns and the
formatted clock readings, by message index. -/
structure Env where
  queryFails : Nat → Bool
  execFails : Nat → Bool
  now : Nat → Nat
  send : Nat → CosineChatRequest → Str → Option Response
  genID : Nat → Str
  clock : Nat → Str

/-- The struct `models.ErrorResponse` together with the HTTP status `sendError`
writes it with. -/
structure ErrorResponse where
  Status : Nat
  Message : Str
  Type_ : Str
  Code : Str
deriving DecidableEq, Repr

/-- Source function `sendError`: the error body written to the client. -/
def sendError (status : Nat) (errType message : Str) : ErrorResponse :=
  { Status := status, Message := message, Type_ := errType, Code := errType }

/-- The loop of `convertToCosineRequest`, from message index `i` on. -/
def convertMessages (genID clock : Nat → Str) : Nat → List OpenAIMessage → List CosineMessage
  | _, [] => []
  | i, msg :: rest =>
    { Content := msg.Content, Role := msg.Role, ID := genID i, CreatedAt := clock i } ::
      convertMessages genID clock (i + 1) rest

/-- Source function `convertToCosineRequest`. -/
def convertToCosineRequest (genID clock : Nat → Str) (req : OpenAIChatRequest) :
    CosineChatRequest :=
  { ID := [], Messages := convertMessages genID clock 0 req.Messages, Model := req.Model,
    TeamID := [], Visibility := "team".data }

/-- One upstream call of the retry loop: the account selected, the request and
credential passed to `SendChatRequest`, and its result. -/
structure Attempt where
  account : Account
  request : CosineChatRequest
  auth : Str
  result : Option Response
deriving DecidableEq, Repr

/-- State at the exit of the retry loop: the database, the variable `resp`,
whether the handler returned from inside the loop, and what the loop did: the
upstream calls, the ids passed to `DeactivateAccount`, and the errors sent. -/
structure LoopResult where
  db : Database
  resp : Option Response
  returned : Bool
  attempts : List Attempt
  deactivated : List Int
  errors : List ErrorResponse
deriving DecidableEq, Repr

/-- The loop `for i := 0; i < maxRetries; i++` of `ChatCompletionsHandler`,
from iteration `i` on with `n = maxRetries - i` iterations left. -/
def retryLoop (env : Env) :
    Nat → Nat → Database → CosineChatRequest → Option Response → LoopResult
  | 0, _, db, _, resp =>
    { db := db, resp := resp, returned := false, attempts := [], deactivated := [], errors := [] }
  | n + 1, i, db, cosineReq, resp =>
    match GetNextAccount (env.queryFails i) db with
    | (.error _, db1) =>
      { db := db1, resp := resp, returned := true, attempts := [], deactivated := [],
        errors := [sendError 503 "service_unavailable".data "no available accounts".data] }
    | (.ok account, db1) =>
      let cosineReq1 := { cosineReq with TeamID := account.TeamID }
      let result := env.send i cosineReq1 account.Auth
      let attempt : Attempt :=
        { account := account, request := cosineReq1, auth := account.Auth, result := result }
      match result with
      | none =>
        let r := retryLoop env n (i + 1) db1 cosineReq1 none
        { r with attempts := attempt :: r.attempts }
      | some resp1 =>
        if resp1.StatusCode = 401 ∨ resp1.StatusCode = 403 then
          let db2 := (DeactivateAccount (env.execFails i) (env.now i) account.ID db1).2
          let r := retryLoop env n (i + 1) db2 cosineReq1 (some resp1)
          { r with attempts := attempt :: r.attempts, deactivated := account.ID :: r.deactivated }
        else if resp1.StatusCode ≠ 200 then
          let r := retryLoop env n (i + 1) db1 cosineReq1 (some resp1)
          { r with attempts := attempt :: r.attempts }
        else
          { db := db1, resp := some resp1, returned := false, attempts := [attempt],
            deactivated := [], errors := [] }

/-- The call that ends a successful request: `handleStreamResponse` or
`handleNonStreamResponse`, with the upstream response and the model name. -/
inductive Handoff where
  | stream (resp : Response) (model : Str)
  | nonStream (resp : Response) (model : Str)
deriving DecidableEq, Repr

/-- What `ChatCompletionsHandler` did up to the hand-over of the upstream
response: the final database, the upstream calls, the ids passed to
`DeactivateAccount`, the errors sent to the client, and the hand-over, if the
request got that far. -/
structure HandlerResult where
  db : Database
  attempts : List Attempt
  deactivated : List Int
  errors : List ErrorResponse
  handoff : Option Handoff
deriving DecidableEq, Repr

/-- Source function `ChatCompletionsHandler`, up to the call that relays the
upstream response; `bound` is the request `ShouldBindJSON` decoded, or the
message of its error. -/
def ChatCompletionsHandler (env : Env) (db : Database) (bound : Except Str OpenAIChatRequest) :
    HandlerResult :=
  match bound with
  | .error msg =>
    { db := db, attempts := [], deactivated := [],
      errors := [sendError 400 "invalid_request_error".data msg], handoff := none }
  | .ok req =>
    let cosineReq := convertToCosineRequest env.genID env.clock req
    let r := retryLoop env maxRetries 0 db cosineReq none
    if r.returned then
      { db := r.db, attempts := r.attempts, deactivated := r.deactivated, errors := r.errors,
        handoff := none }
    else
      match r.resp with
      | none =>
        { db := r.db, attempts := r.attempts, deactivated := r.deactivated,
          errors := r.errors ++ [sendError 502 "upstream_error".data
            "failed to get response from upstream after retries".data],
          handoff := none }
      | some resp =>
        if resp.StatusCode ≠ 200 then
          { db := r.db, attempts := r.attempts, deactivated := r.deactivated,
            errors := r.errors ++ [sendError 502 "upstream_error".data
              "failed to get response from upstream after retries".data],
            handoff := none }
        else
          { db := r.db, attempts := r.attempts, deactivated := r.deactivated, errors := r.errors,
            handoff := some (if req.Stream then .stream resp req.Model
                             else .nonStream resp req.Model) }

/-- One record of the client-facing event stream: `data: <json>` with the
marshalled chunk, or the sentinel `data: [DONE]`. -/
inductive Record where
  | data (chunk : OpenAIChatResponse)
  | done
deriving DecidableEq, Repr

/-- The chunk `handleStreamResponse` builds for a content event. -/
def contentChunk (chatID : Str) (created : Int) (model : Str) (event : StreamEvent) :
    OpenAIChatResponse :=
  { ID := chatID, Object := "chat.completion.chunk".data, Created := created, Model := model,
    Choices := [{ Index := 0, Message := none,
                  Delta := some { Role := [], Content := event.Content },
                  FinishReason := none }],
    Usage := none }

/-- The finish reason `handleStreamResponse` and `handleNonStreamResponse`
report for a finish pointer: `"stop"` unless the pointer is non-nil and its
reason is not empty. -/
def finishReasonOf (finish : Option CosineFinishEvent) : Str :=
  match finish with
  | some f => if f.FinishReason ≠ [] then f.FinishReason else "stop".data
  | none => "stop".data

/-- The chunk `handleStreamResponse` builds for a finish event. -/
def finishChunk (chatID : Str) (created : Int) (model : Str) (event : StreamEvent) :
    OpenAIChatResponse :=
  { ID := chatID, Object := "chat.completion.chunk".data, Created := created, Model := model,
    Choices := [{ Index := 0, Message := none, Delta := some { Role := [], Content := [] },
                  FinishReason := some (finishReasonOf event.Finish) }],
    Usage := none }

/-- The `switch event.Type` of `handleStreamResponse`: the records written for
one received event. -/
def relayWrite (chatID : Str) (created : Int) (model : Str) (event : StreamEvent) : List Record :=
  if event.Kind = "content".data then [.data (contentChunk chatID created model event)]
  else if event.Kind = "finish".data then [.data (finishChunk chatID created model event)]
  else []

/-- The relay of `handleStreamResponse` next to the goroutine it reads from:
the goroutine and its channels, the records written so far and whether the
relay function has returned false. -/
structure StreamState where
  chan : ChanState
  out : List Record
  relayDone : Bool
deriving DecidableEq, Repr

/-- The state when `handleStreamResponse` has called `ParseCosineStream`. -/
def StreamState.init (body : Reader) : StreamState :=
  { chan := ChanState.init body, out := [], relayDone := false }

/-- What may happen next: the goroutine moves on, or the relay's `select`
takes the event case or the error case. -/
inductive Move where
  | produce
  | recvEvent
  | recvErr
deriving DecidableEq, Repr

/-- The relay function of `c.Stream` when its `select` takes
`case event, ok := <-eventCh`; `none` when that case is not ready. -/
def recvEventStep (chatID : Str) (created : Int) (model : Str) (s : StreamState) :
    Option StreamState :=
  if s.relayDone then none
  else
    match s.chan.eventCh with
    | event :: rest =>
      some { s with chan := { s.chan with eventCh := rest },
                    out := s.out ++ relayWrite chatID created model event }
    | [] =>
      if s.chan.eventClosed then some { s with out := s.out ++ [.done], relayDone := true }
      else none

/-- The relay function of `c.Stream` when its `select` takes
`case err := <-errCh`: ready when `errCh` holds a value or is closed. -/
def recvErrStep (s : StreamState) : Option StreamState :=
  if s.relayDone then none
  else
    match s.chan.errCh with
    | some _ =>
      some { s with chan := { s.chan with errCh := none }, out := s.out ++ [.done],
                    relayDone := true }
    | none =>
      if s.chan.errClosed then some { s with out := s.out ++ [.done], relayDone := true }
      else none

/-- One move of the system. -/
def streamStep (chatID : Str) (created : Int) (model : Str) (m : Move) (s : StreamState) :
    Option StreamState :=
  match m with
  | .produce => (produceStep s.chan).map (fun c => { s with chan := c })
  | .recvEvent => recvEventStep chatID created model s
  | .recvErr => recvErrStep s

/-- The moves of a schedule made in order from a state; `none` when a move of
the schedule is not possible. -/
def runStream (chatID : Str) (created : Int) (model : Str) :
    List Move → StreamState → Option StreamState
  | [], s => some s
  | m :: ms, s =>
    match streamStep chatID created model m s with
    | none => none
    | some s1 => runStream chatID created model ms s1

/-- Source function `handleStreamResponse` for an upstream body under a schedule
of the goroutine and the relay; `chatID` and `created` are the generated id and
the clock reading. The field `out` of the state reached holds the records
written to the client. -/
def handleStreamResponse (chatID : Str) (created : Int) (body : Reader) (model : Str)
    (schedule : List Move) : Option StreamState :=
  runStream chatID created model schedule (StreamState.init body)

/-- What `handleNonStreamResponse` writes: an error, or the completion. -/
inductive NonStreamOutput where
  | error (e : ErrorResponse)
  | json (status : Nat) (response : OpenAIChatResponse)
deriving DecidableEq, Repr

/-- Source function `handleNonStreamResponse`; `chatID` and `created` are the
generated id and the clock reading, `errText` renders `err.Error()`. -/
def handleNonStreamResponse (chatID : Str) (created : Int) (errText : ScanError → Str)
    (body : Reader) (model : Str) : NonStreamOutput :=
  match CollectFullResponse body with
  | (_, _, some err) => .error (sendError 500 "internal_error".data (errText err))
  | (content, finishEvent, none) =>
    .json 200
      { ID := chatID, Object := "chat.completion".data, Created := created, Model := model,
        Choices := [{ Index := 0,
                      Message := some { Role := "assistant".data, Content := content },
                      Delta := none, FinishReason := some (finishReasonOf finishEvent) }],
        Usage := some { PromptTokens := 0, CompletionTokens := 0, TotalTokens := 0 } }

/-! ## Definitions the statements use: sequences of calls, example inputs, invariants -/

/-- The package state after `k` successive calls of `GetNextAccount` whose
query succeeds. -/
def afterCalls (k : Nat) (db : Database) : Database :=
  (fun d => (GetNextAccount false d).2)^[k] db

/-- A transient failure of an upstream call: a transport error, or a response
whose status is neither 200 nor 401 nor 403. -/
def transientFailure (result : Option Response) : Prop :=
  match result with
  | none => True
  | some resp => resp.StatusCode ≠ 200 ∧ resp.StatusCode ≠ 401 ∧ resp.StatusCode ≠ 403

instance : IsTotal Account byID := ⟨fun a b => Int.le_total a.ID b.ID⟩

instance : IsTrans Account byID := ⟨fun _ _ _ h1 h2 => Int.le_trans h1 h2⟩

/-- An active account with the given id. -/
def exampleAccount (id : Int) : Account :=
  { ID := id, Auth := "secret".data, TeamID := "team".data, LinuxdoID := none, IsActive := true,
    CreatedAt := 0, UpdatedAt := 0 }

/-- A table of three active accounts, stored out of id order, and a fresh
counter. -/
def exampleDB : Database :=
  { accounts := [exampleAccount 3, exampleAccount 1, exampleAccount 2], counter := 0 }

/-- A client request with one message. -/
def exampleRequest : OpenAIChatRequest :=
  { Model := "m".data, Messages := [{ Role := "user".data, Content := "hi".data }],
    Stream := false }

/-- An upstream that rejects the first call with 401 and the second with 403
and accepts every later one, over a database that answers every statement. -/
def rejectTwiceEnv : Env :=
  { queryFails := fun _ => false, execFails := fun _ => false, now := fun i => i,
    send := fun i _ _ =>
      some { StatusCode := if i = 0 then 401 else if i = 1 then 403 else 200,
             Body := { data := [], err := none } },
    genID := fun _ => "id".data, clock := fun _ => "now".data }

/-- An upstream that fails every call: a transport error first, then status
500. -/
def alwaysFailingEnv : Env :=
  { queryFails := fun _ => false, execFails := fun _ => false, now := fun i => i,
    send := fun i _ _ =>
      if i = 0 then none else some { StatusCode := 500, Body := { data := [], err := none } },
    genID := fun _ => "id".data, clock := fun _ => "now".data }

/-- The upstream body of two content fragments and a clean finish. -/
def exampleBody : Reader :=
  { data := "0:\"Hi\"\n0:\" there\"\ne:\x7b\"finishReason\":\"stop\"\x7d\n".data, err := none }

/-- One call into the credential pool, with what the database answers. -/
inductive PoolOp where
  | getNext (queryFails : Bool)
  | deactivate (execFails : Bool) (now : Nat) (accountID : Int)
  | create (queryFails : Bool) (newID : Int) (now : Nat) (auth teamID : Str) (linuxdoID : Int)
deriving DecidableEq, Repr

/-- The effect of one call: the account `GetNextAccount` returned, if the call
is one and returned an account, and the package state after it. -/
def applyOp (op : PoolOp) (db : Database) : Option Account × Database :=
  match op with
  | .getNext queryFails =>
    match GetNextAccount queryFails db with
    | (.ok a, db1) => (some a, db1)
    | (.error _, db1) => (none, db1)
  | .deactivate execFails now accountID => (none, (DeactivateAccount execFails now accountID db).2)
  | .create queryFails newID now auth teamID linuxdoID =>
    (none, (CreateAccount queryFails newID now auth teamID linuxdoID db).2)

/-- A sequence of calls: the accounts served by its `GetNextAccount` calls, in
order, and the final package state. -/
def runOps : List PoolOp → Database → List Account × Database
  | [], db => ([], db)
  | op :: ops, db =>
    ((applyOp op db).1.toList ++ (runOps ops (applyOp op db).2).1, (runOps ops (applyOp op db).2).2)

/-- The account with id `x` is stored and every row with that id is inactive. -/
def Deactivated (x : Int) (db : Database) : Prop :=
  x ∈ db.accounts.map (fun a => a.ID) ∧ ∀ a ∈ db.accounts, a.ID = x → a.IsActive = false

/-- A character that stands for itself inside a JSON string literal. -/
def plainChar (c : Char) : Bool := 0x20 ≤ c.toNat ∧ c ≠ '"' ∧ c ≠ '\\'

/-- The JSON string literal of a text of plain characters. -/
def quote (s : Str) : Str := '"' :: s ++ ['"']

/-- What holds of every reachable state of the relay, for the decoded events
`events` of the body: the events delivered so far, those buffered in `eventCh`
and those of the lines not yet scanned make up `events`, in this order, and the
output is the records of the delivered events, followed by the sentinel once
the relay is done. -/
def StreamInv (chatID : Str) (created : Int) (model : Str) (events : List StreamEvent)
    (s : StreamState) : Prop :=
  ∃ delivered, delivered ++ s.chan.eventCh ++ lineEvents s.chan.lines = events ∧
    s.out = delivered.flatMap (relayWrite chatID created model) ++
      (if s.relayDone then [Record.done] else [])

/-- Whether a record is a finish chunk: a chunk with a choice whose
`finish_reason` is set. -/
def Record.isFinish : Record → Bool
  | .data chunk => chunk.Choices.any (fun c => c.FinishReason.isSome)
  | .done => false

/-- The results of `n` successive calls of `GetNextAccount` whose query
succeeds, in call order. -/
def servedAccounts (n : Nat) (db : Database) : List (Except DBError Account) :=
  (List.range n).map (fun j => (GetNextAccount false (afterCalls j db)).1)

/-- The upstream answers every call made for account `a` (its `TeamID` in the
request, its credential as the token) with a response whose status satisfies
`p`. -/
def upstreamAnswers (env : Env) (a : Account) (p : Nat → Prop) : Prop :=
  ∀ (i : Nat) (r : CosineChatRequest),
    ∃ resp, env.send i { r with TeamID := a.TeamID } a.Auth = some resp ∧ p resp.StatusCode

/-- An active account with the given id and credential, in the team named after
the credential. -/
def credentialAccount (id : Int) (auth : Str) : Account :=
  { ID := id, Auth := auth, TeamID := "team-".data ++ auth, LinuxdoID := none, IsActive := true,
    CreatedAt := 0, UpdatedAt := 0 }

/-- A table of two accounts with revoked credentials and one with a good one. -/
def failoverDB : Database :=
  { accounts := [credentialAccount 1 "bad1".data, credentialAccount 2 "bad2".data,
                 credentialAccount 3 "good".data],
    counter := 0 }

/-- An upstream that answers the credential `good` with 200 and every other one
with 401, over a database that answers every statement. -/
def rejectBadEnv : Env :=
  { queryFails := fun _ => false, execFails := fun _ => false, now := fun i => i,
    send := fun _ _ auth =>
      some { StatusCode := if auth = "good".data then 200 else 401,
             Body := { data := [], err := none } },
    genID := fun _ => "id".data, clock := fun _ => "now".data }

/-- The event a move takes from `eventCh`: the oldest buffered event when the
relay's `select` takes the event case, none otherwise. -/
def takenEvent (m : Move) (s : StreamState) : List StreamEvent :=
  match m, s.chan.eventCh with
  | .recvEvent, event :: _ => [event]
  | _, _ => []

/-- The events the relay's `select` takes from `eventCh` while the moves of a
schedule are made from a state, in the order it takes them. -/
def receivedEvents (chatID : Str) (created : Int) (model : Str) :
    List Move → StreamState → List StreamEvent
  | [], _ => []
  | m :: ms, s =>
    match streamStep chatID created model m s with
    | none => []
    | some s1 =>
      takenEvent m s ++ receivedEvents chatID created model ms s1

/-- The schedule in which the relay takes each event as soon as it is sent: one
goroutine step per line, followed by a receive when the line has an event, then
the three last steps of the goroutine and the receive that finds `eventCh`
closed. -/
def relaySchedule : List Str → List Move
  | [] => [.produce, .produce, .produce, .recvEvent]
  | line :: rest =>
    (if line.length = 0 then [.produce]
     else match parseLine line with
       | none => [.produce]
       | some _ => [.produce, .recvEvent]) ++ relaySchedule rest

/-! ## Theorems -/

/-! ### The credential pool -/

theorem getActiveAccounts_ok (db : Database) :
    getActiveAccounts false db =
      .ok ((db.accounts.filter (fun a => a.IsActive)).insertionSort byID) := by
  simp [getActiveAccounts]

theorem GetNextAccount_ok (db : Database) (accounts : List Account)
    (h : getActiveAccounts false db = .ok accounts) (hN : accounts ≠ []) :
    ∃ a, accounts[((db.counter + 1) % 2 ^ 64) % accounts.length]? = some a ∧
      GetNextAccount false db = (.ok a, { db with counter := (db.counter + 1) % 2 ^ 64 }) := by
  have hlen : accounts.length ≠ 0 := by simpa using hN
  have hlt : ((db.counter + 1) % 2 ^ 64) % accounts.length < accounts.length :=
    Nat.mod_lt _ (Nat.pos_of_ne_zero hlen)
  refine ⟨accounts.get ⟨_, hlt⟩, ?_, ?_⟩
  · simp [List.getElem?_eq_getElem hlt]
  · unfold GetNextAccount
    rw [h]
    simp [hlen]

theorem counter_succ_ne (c : Nat) : (c + 1) % 2 ^ 64 ≠ c := by
  omega

theorem getActiveAccounts_counter (q : Bool) (db : Database) (c : Nat) :
    getActiveAccounts q { db with counter := c } = getActiveAccounts q db := by
  simp [getActiveAccounts]

theorem GetNextAccount_accounts (q : Bool) (db : Database) :
    (GetNextAccount q db).2.accounts = db.accounts := by
  unfold GetNextAccount
  split
  · rfl
  · split <;> rfl

theorem getActiveAccounts_congr (q : Bool) (db db1 : Database) (h : db1.accounts = db.accounts) :
    getActiveAccounts q db1 = getActiveAccounts q db := by
  simp [getActiveAccounts, h]

theorem afterCalls_state (db : Database) (accounts : List Account)
    (h : getActiveAccounts false db = .ok accounts) (hN : accounts ≠ []) (k : Nat) :
    (afterCalls k db).accounts = db.accounts ∧
    (afterCalls k db).counter % 2 ^ 64 = (db.counter + k) % 2 ^ 64 := by
  unfold afterCalls
  induction k with
  | zero => simp
  | succ k ih =>
    rw [Function.iterate_succ_apply']
    obtain ⟨ih1, ih2⟩ := ih
    have h1 := getActiveAccounts_congr false _ _ ih1
    rw [h] at h1
    obtain ⟨a, -, ha⟩ := GetNextAccount_ok _ accounts h1 hN
    rw [ha]
    refine ⟨ih1, ?_⟩
    simp only []
    omega

/-- C3: over a fixed active set `accounts` of size at least 1 (the active rows
ordered by id), the call of `GetNextAccount` that follows `k` earlier calls
leaves the active set as it is, increments the counter by one modulo `2 ^ 64`
to a value different from the one before, namely `(counter + k + 1) % 2 ^ 64`
for the initial `counter`, and returns the account at index
`new counter % accounts.length` of `accounts`. -/
theorem getNextAccount_serves_counter_mod (db : Database) (accounts : List Account)
    (hact : getActiveAccounts false db = .ok accounts) (hN : 1 ≤ accounts.length) (k : Nat) :
    accounts = (db.accounts.filter (fun a => a.IsActive)).insertionSort byID ∧
    accounts.Sorted byID ∧
    getActiveAccounts false (afterCalls k db) = .ok accounts ∧
    (GetNextAccount false (afterCalls k db)).2 = afterCalls (k + 1) db ∧
    (afterCalls (k + 1) db).counter = ((afterCalls k db).counter + 1) % 2 ^ 64 ∧
    (afterCalls (k + 1) db).counter ≠ (afterCalls k db).counter ∧
    (afterCalls (k + 1) db).counter = (db.counter + (k + 1)) % 2 ^ 64 ∧
    ∃ a, accounts[(afterCalls (k + 1) db).counter % accounts.length]? = some a ∧
      (GetNextAccount false (afterCalls k db)).1 = .ok a := by
  have hne : accounts ≠ [] := by
    intro h0
    simp [h0] at hN
  have hsucc : afterCalls (k + 1) db = (GetNextAccount false (afterCalls k db)).2 := by
    unfold afterCalls
    rw [Function.iterate_succ_apply']
  obtain ⟨i1, i2⟩ := afterCalls_state db accounts hact hne k
  have h1 := getActiveAccounts_congr false _ _ i1
  rw [hact] at h1
  obtain ⟨a, ha1, ha2⟩ := GetNextAccount_ok _ accounts h1 hne
  have hsorted : accounts = (db.accounts.filter (fun a => a.IsActive)).insertionSort byID := by
    rw [getActiveAccounts_ok] at hact
    injection hact with h
    exact h.symm
  rw [hsucc, ha2]
  refine ⟨hsorted, ?_, h1, rfl, rfl, counter_succ_ne _, ?_, a, ha1, rfl⟩
  · rw [hsorted]
    exact List.sorted_insertionSort byID _
  · simp only []
    omega

/-- Witness of C3: three active accounts and a counter at `2 ^ 64 - 2`; the
third call wraps the counter to 1 and serves the account at index 1. -/
theorem getNextAccount_serves_counter_mod_witness :
    getActiveAccounts false { exampleDB with counter := 2 ^ 64 - 2 } =
      .ok [exampleAccount 1, exampleAccount 2, exampleAccount 3] ∧
    (afterCalls 3 { exampleDB with counter := 2 ^ 64 - 2 }).counter = 1 ∧
    (GetNextAccount false (afterCalls 2 { exampleDB with counter := 2 ^ 64 - 2 })).1 =
      .ok (exampleAccount 2) := by
  have h := getNextAccount_serves_counter_mod { exampleDB with counter := 2 ^ 64 - 2 }
    [exampleAccount 1, exampleAccount 2, exampleAccount 3] rfl (by decide) 2
  obtain ⟨-, -, -, -, -, -, hc, a, ha, hget⟩ := h
  have hc1 : (afterCalls (2 + 1) { exampleDB with counter := 2 ^ 64 - 2 }).counter = 1 := by
    rw [hc]; decide
  rw [hc1] at ha
  have ha2 : a = exampleAccount 2 := by
    have : [exampleAccount 1, exampleAccount 2, exampleAccount 3][1 % 3]? =
        some (exampleAccount 2) := rfl
    simp only [List.length_cons, List.length_nil] at ha
    rw [this] at ha
    exact (Option.some.inj ha).symm
  exact ⟨rfl, hc1, by rw [hget, ha2]⟩

/-- The active rows, in table order. -/
theorem active_after_deactivate (now : Nat) (x : Int) (rows : List Account) :
    (rows.map (fun a => if a.ID = x then { a with IsActive := false, UpdatedAt := now } else a)).filter
        (fun a => a.IsActive) =
      (rows.filter (fun a => a.IsActive)).filter (fun a => decide (a.ID ≠ x)) := by
  induction rows with
  | nil => rfl
  | cons a rest ih =>
    by_cases hx : a.ID = x <;> by_cases ha : a.IsActive = true <;>
      simp [List.filter_cons, hx, ha, ih]

theorem ids_after_deactivate (now : Nat) (x : Int) (rows : List Account) :
    (rows.map (fun a => if a.ID = x then { a with IsActive := false, UpdatedAt := now } else a)).map
        (fun a => a.ID) = rows.map (fun a => a.ID) := by
  induction rows with
  | nil => rfl
  | cons a rest ih =>
    by_cases hx : a.ID = x <;> simp [hx, ih]

theorem length_filter_ne_id (l : List Account) (a : Account) (hnd : (l.map (fun a => a.ID)).Nodup)
    (ha : a ∈ l) : (l.filter (fun b => decide (b.ID ≠ a.ID))).length + 1 = l.length := by
  induction l with
  | nil => simp at ha
  | cons b rest ih =>
    simp only [List.map_cons, List.nodup_cons, List.mem_map, not_exists, not_and] at hnd
    rcases List.mem_cons.1 ha with rfl | hmem
    · simpa [List.filter_cons] using hnd.1
    · have hne : b.ID ≠ a.ID := fun h => hnd.1 a hmem h.symm
      have h := ih hnd.2 hmem
      simp only [ne_eq] at h
      simp only [List.filter_cons, hne, ne_eq, not_false_eq_true, decide_True, if_true,
        List.length_cons]
      omega

theorem GetNextAccount_pick (db : Database) (h : db.accounts.filter (fun a => a.IsActive) ≠ []) :
    ∃ a, a ∈ db.accounts.filter (fun a => a.IsActive) ∧
      GetNextAccount false db = (.ok a, { db with counter := (db.counter + 1) % 2 ^ 64 }) := by
  have hne : (db.accounts.filter (fun a => a.IsActive)).insertionSort byID ≠ [] := by
    intro h0
    have := congrArg List.length h0
    rw [List.length_insertionSort] at this
    exact h (List.length_eq_zero.1 this)
  obtain ⟨a, ha, hg⟩ := GetNextAccount_ok db _ (getActiveAccounts_ok db) hne
  refine ⟨a, ?_, hg⟩
  have hmem := List.getElem?_mem ha
  exact (List.perm_insertionSort byID _).mem_iff.1 hmem

theorem DeactivateAccount_ok (now : Nat) (x : Int) (db : Database) :
    (DeactivateAccount false now x db).2 =
      { db with accounts := db.accounts.map (fun a =>
          if a.ID = x then { a with IsActive := false, UpdatedAt := now } else a) } := by
  simp [DeactivateAccount]

theorem GetNextAccount_served (q : Bool) (db : Database) (a : Account)
    (h : (GetNextAccount q db).1 = .ok a) : a ∈ db.accounts ∧ a.IsActive = true := by
  unfold GetNextAccount at h
  cases q with
  | true => simp [getActiveAccounts] at h
  | false =>
    rw [getActiveAccounts_ok] at h
    simp only at h
    split at h
    · simp at h
    · simp only [Except.ok.injEq] at h
      have hmem : a ∈ (db.accounts.filter (fun a => a.IsActive)).insertionSort byID := by
        rw [← h]; exact List.get_mem _ _ _
      have := (List.perm_insertionSort byID _).mem_iff.1 hmem
      simpa using this

theorem applyOp_keeps_deactivated (x : Int) (op : PoolOp) (db : Database)
    (h : Deactivated x db) : Deactivated x (applyOp op db).2 := by
  obtain ⟨hx, hin⟩ := h
  cases op with
  | getNext q =>
    have hacc := GetNextAccount_accounts q db
    have : (applyOp (.getNext q) db).2 = (GetNextAccount q db).2 := by
      simp only [applyOp]; split <;> simp_all
    rw [this]
    exact ⟨by rw [hacc]; exact hx, by rw [hacc]; exact hin⟩
  | deactivate e now y =>
    simp only [applyOp, DeactivateAccount]
    split
    · exact ⟨hx, hin⟩
    · refine ⟨by simp only [ids_after_deactivate]; exact hx, ?_⟩
      intro a ha hax
      simp only [List.mem_map] at ha
      obtain ⟨b, hb, rfl⟩ := ha
      by_cases hby : b.ID = y
      · simp [hby]
      · simp only [hby, if_false] at hax ⊢
        exact hin b hb hax
  | create q newID now auth teamID linuxdoID =>
    simp only [applyOp, CreateAccount]
    split
    · exact ⟨hx, hin⟩
    · rename_i hc
      simp only [not_or] at hc
      refine ⟨by simp only [List.map_append, List.mem_append]; exact Or.inl hx, ?_⟩
      intro a ha hax
      simp only [List.mem_append, List.mem_singleton] at ha
      rcases ha with ha | rfl
      · exact hin a ha hax
      · have hnx : newID = x := hax
        exact absurd (hnx ▸ hx) hc.2

theorem runOps_keeps_deactivated (x : Int) (ops : List PoolOp) :
    ∀ db, Deactivated x db →
      Deactivated x (runOps ops db).2 ∧ ∀ a ∈ (runOps ops db).1, a.ID ≠ x ∧ a.IsActive = true := by
  induction ops with
  | nil => intro db h; exact ⟨h, by simp [runOps]⟩
  | cons op ops ih =>
    intro db h
    have h1 := applyOp_keeps_deactivated x op db h
    obtain ⟨ih1, ih2⟩ := ih _ h1
    refine ⟨ih1, ?_⟩
    intro a ha
    simp only [runOps, List.mem_append, Option.mem_toList, Option.mem_def] at ha
    rcases ha with ha | ha
    · cases op with
      | getNext q =>
        simp only [applyOp] at ha
        split at ha
        · rename_i b db1 hb
          simp only [Option.some.injEq] at ha
          subst ha
          have := GetNextAccount_served q db b (by rw [hb])
          exact ⟨fun hax => by simpa [this.2] using h.2 b this.1 hax, this.2⟩
        · simp at ha
      | deactivate e now y => simp [applyOp] at ha
      | create q newID now auth teamID linuxdoID => simp [applyOp] at ha
    · exact ih2 a ha

/-- C4: once `DeactivateAccount x` has succeeded on a table that stores an
account with id `x`, then after every sequence of `GetNextAccount`,
`DeactivateAccount` and `CreateAccount` calls (each free to fail, and for every
counter value) no `GetNextAccount` call of the sequence returns an account with
id `x`, every row with id `x` is still inactive, every id that was stored and
inactive stays so, and every account served has its active flag set. -/
theorem deactivated_account_never_served (db db1 : Database) (execFails : Bool) (now : Nat)
    (x : Int) (hx : x ∈ db.accounts.map (fun a => a.ID))
    (hd : DeactivateAccount execFails now x db = (.ok (), db1)) (ops : List PoolOp) :
    (∀ a ∈ (runOps ops db1).1, a.ID ≠ x) ∧
    (∀ a ∈ (runOps ops db1).2.accounts, a.ID = x → a.IsActive = false) ∧
    (∀ y, Deactivated y db1 → Deactivated y (runOps ops db1).2) ∧
    (∀ a ∈ (runOps ops db1).1, a.IsActive = true) := by
  have hD : Deactivated x db1 := by
    unfold DeactivateAccount at hd
    split at hd
    · simp at hd
    · simp only [Prod.mk.injEq, true_and] at hd
      subst hd
      refine ⟨by simp only [ids_after_deactivate]; exact hx, ?_⟩
      intro a ha hax
      simp only [List.mem_map] at ha
      obtain ⟨b, hb, rfl⟩ := ha
      by_cases hby : b.ID = x
      · simp [hby]
      · simp [hby] at hax
  obtain ⟨h1, h2⟩ := runOps_keeps_deactivated x ops db1 hD
  exact ⟨fun a ha => (h2 a ha).1, h1.2, fun y hy => (runOps_keeps_deactivated y ops db1 hy).1,
    fun a ha => (h2 a ha).2⟩

/-- Witness of C4: account 2 of three is deactivated; the calls that follow
serve accounts and create one, and none serves account 2. -/
theorem deactivated_account_never_served_witness :
    (2 : Int) ∈ exampleDB.accounts.map (fun a => a.ID) ∧
    DeactivateAccount false 7 2 exampleDB = (.ok (), (DeactivateAccount false 7 2 exampleDB).2) ∧
    (runOps [.getNext false, .create false 9 8 "a".data "t".data 5, .getNext false,
        .getNext false, .deactivate false 9 1, .getNext false]
      (DeactivateAccount false 7 2 exampleDB).2).1.map (fun a => a.ID) = [3, 9, 1, 3] ∧
    ∀ a ∈ (runOps [.getNext false, .create false 9 8 "a".data "t".data 5, .getNext false,
        .getNext false, .deactivate false 9 1, .getNext false]
      (DeactivateAccount false 7 2 exampleDB).2).1, a.ID ≠ 2 :=
  ⟨by decide, rfl, by decide,
    (deactivated_account_never_served exampleDB _ false 7 2 (by decide) rfl _).1⟩

/-! ### The retry loop of `ChatCompletionsHandler` -/

theorem retryLoop_head (env : Env) (n i : Nat) (db db1 : Database) (req : CosineChatRequest)
    (resp : Option Response) (a : Account)
    (hg : GetNextAccount (env.queryFails i) db = (.ok a, db1)) :
    (retryLoop env (n + 1) i db req resp).attempts[0]? =
      some { account := a, request := { req with TeamID := a.TeamID }, auth := a.Auth,
             result := env.send i { req with TeamID := a.TeamID } a.Auth } := by
  simp only [retryLoop, hg]
  split
  · simp
  · split
    · simp
    · split <;> simp

theorem retryLoop_reject (env : Env) (n i : Nat) (db db1 : Database) (req : CosineChatRequest)
    (resp : Option Response) (a : Account) (resp1 : Response)
    (hg : GetNextAccount (env.queryFails i) db = (.ok a, db1))
    (hs : env.send i { req with TeamID := a.TeamID } a.Auth = some resp1)
    (hr : resp1.StatusCode = 401 ∨ resp1.StatusCode = 403) :
    retryLoop env (n + 1) i db req resp =
      { retryLoop env n (i + 1) (DeactivateAccount (env.execFails i) (env.now i) a.ID db1).2
          { req with TeamID := a.TeamID } (some resp1) with
        attempts := { account := a, request := { req with TeamID := a.TeamID }, auth := a.Auth,
                      result := some resp1 } ::
          (retryLoop env n (i + 1) (DeactivateAccount (env.execFails i) (env.now i) a.ID db1).2
            { req with TeamID := a.TeamID } (some resp1)).attempts
        deactivated := a.ID ::
          (retryLoop env n (i + 1) (DeactivateAccount (env.execFails i) (env.now i) a.ID db1).2
            { req with TeamID := a.TeamID } (some resp1)).deactivated } := by
  simp only [retryLoop, hg, hs]
  rw [if_pos hr]

theorem retryLoop_accept (env : Env) (n i : Nat) (db db1 : Database) (req : CosineChatRequest)
    (resp : Option Response) (a : Account) (resp1 : Response)
    (hg : GetNextAccount (env.queryFails i) db = (.ok a, db1))
    (hs : env.send i { req with TeamID := a.TeamID } a.Auth = some resp1)
    (hr : resp1.StatusCode = 200) :
    retryLoop env (n + 1) i db req resp =
      { db := db1, resp := some resp1, returned := false,
        attempts := [{ account := a, request := { req with TeamID := a.TeamID }, auth := a.Auth,
                       result := some resp1 }],
        deactivated := [], errors := [] } := by
  simp only [retryLoop, hg, hs]
  rw [if_neg (by omega), if_neg (by simp [hr])]

theorem handler_fields (env : Env) (db : Database) (req : OpenAIChatRequest) :
    (ChatCompletionsHandler env db (.ok req)).attempts =
      (retryLoop env maxRetries 0 db (convertToCosineRequest env.genID env.clock req) none).attempts ∧
    (ChatCompletionsHandler env db (.ok req)).deactivated =
      (retryLoop env maxRetries 0 db (convertToCosineRequest env.genID env.clock req) none).deactivated ∧
    (ChatCompletionsHandler env db (.ok req)).db =
      (retryLoop env maxRetries 0 db (convertToCosineRequest env.genID env.clock req) none).db := by
  simp only [ChatCompletionsHandler]
  split
  · exact ⟨rfl, rfl, rfl⟩
  · split
    · exact ⟨rfl, rfl, rfl⟩
    · split <;> exact ⟨rfl, rfl, rfl⟩

theorem reject_iteration (env : Env) (n i : Nat) (db : Database) (req : CosineChatRequest)
    (resp : Option Response) (hq : env.queryFails i = false) (he : env.execFails i = false)
    (hact : db.accounts.filter (fun a => a.IsActive) ≠ [])
    (hrej : ∀ att, (retryLoop env (n + 1) i db req resp).attempts[0]? = some att →
      ∃ r, att.result = some r ∧ (r.StatusCode = 401 ∨ r.StatusCode = 403)) :
    ∃ a resp1 db1 rest, a ∈ db.accounts.filter (fun a => a.IsActive) ∧
      (resp1.StatusCode = 401 ∨ resp1.StatusCode = 403) ∧
      db1.accounts = db.accounts.map (fun b =>
          if b.ID = a.ID then { b with IsActive := false, UpdatedAt := env.now i } else b) ∧
      rest = retryLoop env n (i + 1) db1 { req with TeamID := a.TeamID } (some resp1) ∧
      retryLoop env (n + 1) i db req resp =
        { rest with
          attempts := { account := a, request := { req with TeamID := a.TeamID }, auth := a.Auth,
                        result := some resp1 } :: rest.attempts
          deactivated := a.ID :: rest.deactivated } := by
  obtain ⟨a, ha, hg⟩ := GetNextAccount_pick db hact
  rw [← hq] at hg
  obtain ⟨resp1, hs, hr⟩ := hrej _ (retryLoop_head env n i db _ req resp a hg)
  have hL := retryLoop_reject env n i db _ req resp a resp1 hg hs hr
  rw [he, DeactivateAccount_ok] at hL
  exact ⟨a, resp1, _, _, ha, hr, rfl, rfl, hL⟩

theorem accept_iteration (env : Env) (n i : Nat) (db : Database) (req : CosineChatRequest)
    (resp : Option Response) (hq : env.queryFails i = false)
    (hact : db.accounts.filter (fun a => a.IsActive) ≠ [])
    (hok : ∀ att, (retryLoop env (n + 1) i db req resp).attempts[0]? = some att →
      ∃ r, att.result = some r ∧ r.StatusCode = 200) :
    ∃ a resp1, a ∈ db.accounts.filter (fun a => a.IsActive) ∧ resp1.StatusCode = 200 ∧
      retryLoop env (n + 1) i db req resp =
        { db := { db with counter := (db.counter + 1) % 2 ^ 64 }, resp := some resp1,
          returned := false,
          attempts := [{ account := a, request := { req with TeamID := a.TeamID }, auth := a.Auth,
                         result := some resp1 }],
          deactivated := [], errors := [] } := by
  obtain ⟨a, ha, hg⟩ := GetNextAccount_pick db hact
  rw [← hq] at hg
  obtain ⟨resp1, hs, hr⟩ := hok _ (retryLoop_head env n i db _ req resp a hg)
  exact ⟨a, resp1, ha, hr, retryLoop_accept env n i db _ req resp a resp1 hg hs hr⟩

theorem active_ids_nodup (rows : List Account) (h : (rows.map (fun a => a.ID)).Nodup) :
    ((rows.filter (fun a => a.IsActive)).map (fun a => a.ID)).Nodup :=
  h.sublist ((List.filter_sublist rows).map _)

/-- C1: with a database that answers every statement, ids that are keys and
exactly three active accounts, if the first two upstream calls of the handler
are answered 401 or 403 and the third 200, then the handler makes exactly three
upstream calls, passes exactly the ids of the first two selected accounts to
`DeactivateAccount` (two distinct ids), selects three pairwise distinct accounts,
each active in the initial table, leaves no deactivated id active, sends no
error and hands the 200 response over. -/
theorem three_accounts_two_rejections (env : Env) (db : Database) (req : OpenAIChatRequest)
    (hq : ∀ i, env.queryFails i = false) (he : ∀ i, env.execFails i = false)
    (hkey : (db.accounts.map (fun a => a.ID)).Nodup)
    (h3 : (db.accounts.filter (fun a => a.IsActive)).length = 3)
    (hrej : ∀ k att, k < 2 → (ChatCompletionsHandler env db (.ok req)).attempts[k]? = some att →
      ∃ resp, att.result = some resp ∧ (resp.StatusCode = 401 ∨ resp.StatusCode = 403))
    (hok : ∀ att, (ChatCompletionsHandler env db (.ok req)).attempts[2]? = some att →
      ∃ resp, att.result = some resp ∧ resp.StatusCode = 200) :
    (ChatCompletionsHandler env db (.ok req)).attempts.length = 3 ∧
    (ChatCompletionsHandler env db (.ok req)).deactivated =
      ((ChatCompletionsHandler env db (.ok req)).attempts.take 2).map (fun att => att.account.ID) ∧
    (ChatCompletionsHandler env db (.ok req)).deactivated.length = 2 ∧
    (ChatCompletionsHandler env db (.ok req)).deactivated.Nodup ∧
    ((ChatCompletionsHandler env db (.ok req)).attempts.map (fun att => att.account.ID)).Nodup ∧
    (∀ att ∈ (ChatCompletionsHandler env db (.ok req)).attempts,
      att.account ∈ db.accounts ∧ att.account.IsActive = true) ∧
    (∀ a ∈ (ChatCompletionsHandler env db (.ok req)).db.accounts,
      a.IsActive = true → a.ID ∉ (ChatCompletionsHandler env db (.ok req)).deactivated) ∧
    (ChatCompletionsHandler env db (.ok req)).errors = [] ∧
    ∃ resp, resp.StatusCode = 200 ∧
      (ChatCompletionsHandler env db (.ok req)).handoff =
        some (if req.Stream then .stream resp req.Model else .nonStream resp req.Model) := by
  have hloop : ∃ L, L = retryLoop env maxRetries 0 db
      (convertToCosineRequest env.genID env.clock req) none := ⟨_, rfl⟩
  obtain ⟨L, hL⟩ := hloop
  have hH : ChatCompletionsHandler env db (.ok req) =
      if L.returned then
        { db := L.db, attempts := L.attempts, deactivated := L.deactivated, errors := L.errors,
          handoff := none }
      else
        match L.resp with
        | none =>
          { db := L.db, attempts := L.attempts, deactivated := L.deactivated,
            errors := L.errors ++ [sendError 502 "upstream_error".data
              "failed to get response from upstream after retries".data],
            handoff := none }
        | some resp =>
          if resp.StatusCode ≠ 200 then
            { db := L.db, attempts := L.attempts, deactivated := L.deactivated,
              errors := L.errors ++ [sendError 502 "upstream_error".data
                "failed to get response from upstream after retries".data],
              handoff := none }
          else
            { db := L.db, attempts := L.attempts, deactivated := L.deactivated,
              errors := L.errors,
              handoff := some (if req.Stream then .stream resp req.Model
                               else .nonStream resp req.Model) } := by
    rw [hL]; rfl
  obtain ⟨hfa, -, -⟩ := handler_fields env db req
  rw [hfa, ← hL] at hrej hok
  -- first iteration
  have hact0 : db.accounts.filter (fun a => a.IsActive) ≠ [] := by
    intro h; simp [h] at h3
  have hL0 : L = retryLoop env (2 + 1) 0 db (convertToCosineRequest env.genID env.clock req)
      none := hL
  obtain ⟨a0, r0, db1, L1, ha0, -, hdb1, hL1, hstep0⟩ :=
    reject_iteration env 2 0 db _ none (hq 0) (he 0) hact0
      (fun att h => hrej 0 att (by omega) (by rw [hL0]; exact h))
  rw [← hL0] at hstep0
  -- second iteration
  have hnd0 := active_ids_nodup db.accounts hkey
  have hact1 : db1.accounts.filter (fun a => a.IsActive) =
      (db.accounts.filter (fun a => a.IsActive)).filter (fun b => decide (b.ID ≠ a0.ID)) := by
    rw [hdb1, active_after_deactivate]
  have hlen1 := length_filter_ne_id _ a0 hnd0 ha0
  rw [← hact1] at hlen1
  have hne1 : db1.accounts.filter (fun a => a.IsActive) ≠ [] := by
    intro h; rw [h] at hlen1; simp at hlen1; omega
  have hkey1 : (db1.accounts.map (fun a => a.ID)).Nodup := by
    rw [hdb1, ids_after_deactivate]; exact hkey
  have hL1' : L1 = retryLoop env (1 + 1) (0 + 1) db1 _ (some r0) := hL1
  obtain ⟨a1, r1, db2, L2, ha1, -, hdb2, hL2, hstep1⟩ :=
    reject_iteration env 1 (0 + 1) db1 _ (some r0) (hq _) (he _) hne1
      (fun att h => hrej 1 att (by omega) (by rw [hstep0, hL1']; simpa using h))
  rw [← hL1'] at hstep1
  -- third iteration
  have hnd1 := active_ids_nodup db1.accounts hkey1
  have hact2 : db2.accounts.filter (fun a => a.IsActive) =
      (db1.accounts.filter (fun a => a.IsActive)).filter (fun b => decide (b.ID ≠ a1.ID)) := by
    rw [hdb2, active_after_deactivate]
  have hlen2 := length_filter_ne_id _ a1 hnd1 ha1
  rw [← hact2] at hlen2
  have hne2 : db2.accounts.filter (fun a => a.IsActive) ≠ [] := by
    intro h; rw [h] at hlen2; simp at hlen2; omega
  have hL2' : L2 = retryLoop env (0 + 1) (0 + 1 + 1) db2 _ (some r1) := hL2
  obtain ⟨a2, r2, ha2, hr2, hstep2⟩ :=
    accept_iteration env 0 (0 + 1 + 1) db2 _ (some r1) (hq _) hne2
      (fun att h => hok att (by rw [hstep0, hstep1, hL2']; simpa using h))
  rw [← hL2'] at hstep2
  -- the accounts selected
  rw [hact1] at ha1
  rw [hact2, hact1] at ha2
  simp only [List.mem_filter, decide_eq_true_eq, ne_eq] at ha0 ha1 ha2
  clear hL2 hL2' hL1 hL1' hL hL0 hrej hok hfa
  subst hstep2
  subst hstep1
  subst hstep0
  rw [hH]
  simp only [Bool.false_eq_true, if_false, hr2, ne_eq, not_true_eq_false]
  refine ⟨by simp, by simp, by simp, ?_, ?_, ?_, ?_, trivial, r2, hr2, rfl⟩
  · simp only [List.nodup_cons, List.mem_singleton, List.not_mem_nil, not_false_eq_true,
      List.nodup_nil, and_true]
    exact fun h => ha1.2 h.symm
  · simp only [List.map_cons, List.map_nil, List.nodup_cons, List.mem_cons, List.mem_singleton,
      List.not_mem_nil, not_false_eq_true, List.nodup_nil, and_true, not_or]
    exact ⟨⟨fun h => ha1.2 h.symm, fun h => ha2.1.2 h.symm⟩, fun h => ha2.2 h.symm⟩
  · intro att hatt
    simp only [List.mem_cons, List.mem_singleton, List.not_mem_nil, or_false] at hatt
    rcases hatt with rfl | rfl | rfl
    · exact ha0
    · exact ha1.1
    · exact ha2.1.1
  · intro a hmem hactive
    have : a ∈ db2.accounts.filter (fun a => a.IsActive) := by
      simp [List.mem_filter, hmem, hactive]
    rw [hact2, hact1] at this
    simp only [List.mem_filter, decide_eq_true_eq, ne_eq] at this
    simp only [List.mem_cons, List.mem_singleton, List.not_mem_nil, or_false, not_or]
    exact ⟨this.1.2, this.2⟩

/-- Witness of C1: three active accounts with ids 3, 1, 2 and a fresh counter;
the upstream answers 401, 403 and then 200. The accounts 2 and 1 are selected
and deactivated, account 3 is selected third and its response handed over. -/
theorem three_accounts_two_rejections_witness :
    (∀ i, rejectTwiceEnv.queryFails i = false) ∧ (∀ i, rejectTwiceEnv.execFails i = false) ∧
    (exampleDB.accounts.map (fun a => a.ID)).Nodup ∧
    (exampleDB.accounts.filter (fun a => a.IsActive)).length = 3 ∧
    (ChatCompletionsHandler rejectTwiceEnv exampleDB (.ok exampleRequest)).attempts.length = 3 ∧
    (ChatCompletionsHandler rejectTwiceEnv exampleDB (.ok exampleRequest)).deactivated = [2, 1] ∧
    (ChatCompletionsHandler rejectTwiceEnv exampleDB (.ok exampleRequest)).errors = [] := by
  have hrej : ∀ k att, k < 2 →
      (ChatCompletionsHandler rejectTwiceEnv exampleDB (.ok exampleRequest)).attempts[k]? =
        some att →
      ∃ resp, att.result = some resp ∧ (resp.StatusCode = 401 ∨ resp.StatusCode = 403) := by
    intro k att hk h
    have h0 : (ChatCompletionsHandler rejectTwiceEnv exampleDB
        (.ok exampleRequest)).attempts[0]?.bind (fun a => a.result.map (fun r => r.StatusCode)) =
          some 401 := by decide
    have h1 : (ChatCompletionsHandler rejectTwiceEnv exampleDB
        (.ok exampleRequest)).attempts[1]?.bind (fun a => a.result.map (fun r => r.StatusCode)) =
          some 403 := by decide
    interval_cases k
    · rw [h] at h0
      cases hr : att.result with
      | none => simp [hr] at h0
      | some resp => exact ⟨resp, rfl, Or.inl (by simpa [hr] using h0)⟩
    · rw [h] at h1
      cases hr : att.result with
      | none => simp [hr] at h1
      | some resp => exact ⟨resp, rfl, Or.inr (by simpa [hr] using h1)⟩
  have hok : ∀ att,
      (ChatCompletionsHandler rejectTwiceEnv exampleDB (.ok exampleRequest)).attempts[2]? =
        some att →
      ∃ resp, att.result = some resp ∧ resp.StatusCode = 200 := by
    intro att h
    have h2 : (ChatCompletionsHandler rejectTwiceEnv exampleDB
        (.ok exampleRequest)).attempts[2]?.bind (fun a => a.result.map (fun r => r.StatusCode)) =
          some 200 := by decide
    rw [h] at h2
    cases hr : att.result with
    | none => simp [hr] at h2
    | some resp => exact ⟨resp, rfl, by simpa [hr] using h2⟩
  have h := three_accounts_two_rejections rejectTwiceEnv exampleDB exampleRequest
    (fun _ => rfl) (fun _ => rfl) (by decide) (by decide) hrej hok
  exact ⟨fun _ => rfl, fun _ => rfl, by decide, by decide, h.1, by decide, h.2.2.2.2.2.2.2.1⟩

theorem retryLoop_transient (env : Env) (hq : ∀ i, env.queryFails i = false) (n : Nat) :
    ∀ (i : Nat) (db : Database) (req : CosineChatRequest) (resp : Option Response),
      db.accounts.filter (fun a => a.IsActive) ≠ [] →
      (∀ r, resp = some r → r.StatusCode ≠ 200) →
      (∀ att ∈ (retryLoop env n i db req resp).attempts, transientFailure att.result) →
      (retryLoop env n i db req resp).attempts.length = n ∧
      (retryLoop env n i db req resp).deactivated = [] ∧
      (retryLoop env n i db req resp).db.accounts = db.accounts ∧
      (retryLoop env n i db req resp).returned = false ∧
      (retryLoop env n i db req resp).errors = [] ∧
      ∀ r, (retryLoop env n i db req resp).resp = some r → r.StatusCode ≠ 200 := by
  induction n with
  | zero =>
    intro i db req resp _ hresp _
    simpa [retryLoop] using hresp
  | succ n ih =>
    intro i db req resp hact hresp htr
    obtain ⟨a, -, hg⟩ := GetNextAccount_pick db hact
    rw [← hq i] at hg
    have hhead := retryLoop_head env n i db _ req resp a hg
    have h0 := htr _ (List.getElem?_mem hhead)
    simp only [retryLoop, hg] at htr ⊢
    cases hs : env.send i { req with TeamID := a.TeamID } a.Auth with
    | none =>
      simp only [hs] at htr ⊢
      have := ih (i + 1) { db with counter := (db.counter + 1) % 2 ^ 64 }
        { req with TeamID := a.TeamID } none hact (by simp)
        (fun att hatt => htr att (List.mem_cons_of_mem _ hatt))
      simp only [List.length_cons, this, true_and]
      exact this.2.2.2.2.2
    | some resp1 =>
      simp only [hs, transientFailure] at h0
      simp only [hs] at htr ⊢
      have hnr : ¬(resp1.StatusCode = 401 ∨ resp1.StatusCode = 403) := by omega
      rw [if_neg hnr, if_pos h0.1] at htr ⊢
      have := ih (i + 1) { db with counter := (db.counter + 1) % 2 ^ 64 }
        { req with TeamID := a.TeamID } (some resp1) hact
        (by intro r hr; injection hr with hr; rw [← hr]; exact h0.1)
        (fun att hatt => htr att (List.mem_cons_of_mem _ hatt))
      simp only [List.length_cons, this, true_and]
      exact this.2.2.2.2.2

/-- C2: with a database that answers every query and a non-empty active set,
if every upstream call of the handler is a transient failure (a transport
error, or a status that is neither 200 nor 401 nor 403), then the handler makes
exactly `maxRetries = 3` upstream calls, never calls `DeactivateAccount`, leaves
the table as it was, and sends the client exactly one error: status 502 of type
`upstream_error`, with no hand-over of a response. -/
theorem transient_failures_exhaust_retries (env : Env) (db : Database) (req : OpenAIChatRequest)
    (hq : ∀ i, env.queryFails i = false)
    (hact : db.accounts.filter (fun a => a.IsActive) ≠ [])
    (htr : ∀ att ∈ (ChatCompletionsHandler env db (.ok req)).attempts,
      transientFailure att.result) :
    (ChatCompletionsHandler env db (.ok req)).attempts.length = maxRetries ∧
    maxRetries = 3 ∧
    (ChatCompletionsHandler env db (.ok req)).deactivated = [] ∧
    (ChatCompletionsHandler env db (.ok req)).db.accounts = db.accounts ∧
    (ChatCompletionsHandler env db (.ok req)).errors =
      [{ Status := 502, Message := "failed to get response from upstream after retries".data,
         Type_ := "upstream_error".data, Code := "upstream_error".data }] ∧
    (ChatCompletionsHandler env db (.ok req)).handoff = none := by
  obtain ⟨hfa, -, -⟩ := handler_fields env db req
  rw [hfa] at htr
  obtain ⟨h1, h2, h3, h4, h5, h6⟩ :=
    retryLoop_transient env hq maxRetries 0 db _ none hact (by simp) htr
  simp only [ChatCompletionsHandler, h4, Bool.false_eq_true, if_false]
  cases hr : (retryLoop env maxRetries 0 db
      (convertToCosineRequest env.genID env.clock req) none).resp with
  | none =>
    refine ⟨?_, rfl, ?_, ?_, ?_, ?_⟩ <;> simp [h1, h2, h3, h5, sendError]
  | some r =>
    refine ⟨?_, rfl, ?_, ?_, ?_, ?_⟩ <;> simp [h6 r hr, h1, h2, h3, h5, sendError]

/-- Witness of C2: three active accounts; the first upstream call fails in
transport and the next two are answered 500. -/
theorem transient_failures_exhaust_retries_witness :
    (∀ i, alwaysFailingEnv.queryFails i = false) ∧
    exampleDB.accounts.filter (fun a => a.IsActive) ≠ [] ∧
    (ChatCompletionsHandler alwaysFailingEnv exampleDB (.ok exampleRequest)).attempts.length = 3 ∧
    (ChatCompletionsHandler alwaysFailingEnv exampleDB (.ok exampleRequest)).deactivated = [] ∧
    (ChatCompletionsHandler alwaysFailingEnv exampleDB (.ok exampleRequest)).db.accounts =
      exampleDB.accounts ∧
    (ChatCompletionsHandler alwaysFailingEnv exampleDB (.ok exampleRequest)).errors =
      [{ Status := 502, Message := "failed to get response from upstream after retries".data,
         Type_ := "upstream_error".data, Code := "upstream_error".data }] := by
  have htr : ∀ att ∈ (ChatCompletionsHandler alwaysFailingEnv exampleDB
      (.ok exampleRequest)).attempts, transientFailure att.result := by
    have hall : (ChatCompletionsHandler alwaysFailingEnv exampleDB
        (.ok exampleRequest)).attempts.map (fun a => a.result.map (fun r => r.StatusCode)) =
          [none, some 500, some 500] := by decide
    intro att hatt
    have hmem := List.mem_map_of_mem (fun a => a.result.map (fun r => r.StatusCode)) hatt
    rw [hall] at hmem
    cases hr : att.result with
    | none => trivial
    | some resp =>
      simp [hr] at hmem
      simp only [transientFailure, hmem]
      decide
  have h := transient_failures_exhaust_retries alwaysFailingEnv exampleDB exampleRequest
    (fun _ => rfl) (by decide) htr
  exact ⟨fun _ => rfl, by decide, h.1, h.2.2.1, h.2.2.2.1, h.2.2.2.2.1⟩

/-! ### `parseLine` -/

theorem Index_colon (pre payload : Str) (hpre : ':' ∉ pre) :
    Index (pre ++ ':' :: payload) ':' = (pre.length : Int) := by
  unfold Index
  rw [if_pos (by simp)]
  rw [List.indexOf_append_of_not_mem hpre]
  simp

theorem TrimSpace_nil : TrimSpace [] = [] := rfl

theorem parseLine_split (pre payload : Str) (hpre : ':' ∉ pre) (hne : pre ≠ []) :
    parseLine (pre ++ ':' :: payload) =
      if TrimSpace pre = "0".data then
        match unmarshalString (TrimSpace payload) with
        | some content => some { Kind := "content".data, Content := content, Finish := none }
        | none => some { Kind := "content".data, Content := TrimSpace payload, Finish := none }
      else if TrimSpace pre = "e".data then
        match unmarshalFinish (TrimSpace payload) with
        | none =>
          some { Kind := "finish".data, Content := [],
                 Finish := some { CosineFinishEvent.zero with FinishReason := "stop".data } }
        | some finish => some { Kind := "finish".data, Content := [], Finish := some finish }
      else if TrimSpace pre = "d".data then
        match unmarshalFinish (TrimSpace payload) with
        | none => none
        | some finish => some { Kind := "finish".data, Content := [], Finish := some finish }
      else none := by
  have hlen : pre.length ≠ 0 := by simpa using hne
  have hidx := Index_colon pre payload hpre
  unfold parseLine
  simp only [hidx]
  have h1 : ¬((pre.length : Int) = -1 ∨ (pre.length : Int) = 0) := by omega
  rw [if_neg h1]
  have h2 : List.take pre.length (pre ++ ':' :: payload) = pre := by simp
  have h3 : List.drop (pre.length + 1) (pre ++ ':' :: payload) = payload := by
    rw [← List.drop_drop]; simp
  simp only [Int.toNat_ofNat, h2, h3]

theorem unquoteItems_plain (s : Str) : unquoteItems none (s.map StrItem.ch) = s := by
  induction s with
  | nil => rfl
  | cons c s ih => simp [unquoteItems, ih]

theorem lexStep_plain (acc : List StrItem) (c : Char) (hc : plainChar c = true) :
    lexStep (.str acc) c = some (.str (.ch c :: acc), []) := by
  simp only [plainChar, decide_eq_true_eq, Bool.decide_and, Bool.and_eq_true] at hc
  obtain ⟨h1, h2, h3⟩ := hc
  simp only [lexStep]
  rw [if_neg h2, if_neg h3, if_neg (by omega)]

theorem lexFrom_cons (st : LexState) (c : Char) (rest : Str) :
    lexFrom st (c :: rest) =
      match lexStep st c with
      | none => none
      | some (st1, toks) =>
        match lexFrom st1 rest with
        | none => none
        | some more => some (toks ++ more) := by
  cases st <;> rfl

theorem lexFrom_string (s : Str) (hs : s.all plainChar = true) (rest : Str) :
    ∀ t : Str, lexFrom (.str (t.map StrItem.ch).reverse) (s ++ '"' :: rest) =
      (lexFrom .start rest).map (fun more => Tok.str (t ++ s) :: more) := by
  induction s with
  | nil =>
    intro t
    simp only [List.nil_append, lexFrom_cons, lexStep, if_true, List.reverse_reverse,
      unquoteItems_plain, List.append_nil]
    cases lexFrom .start rest <;> rfl
  | cons c s ih =>
    intro t
    simp only [List.all_cons, Bool.and_eq_true] at hs
    have := ih hs.2 (t ++ [c])
    simp only [List.map_append, List.map_cons, List.map_nil, List.reverse_append,
      List.reverse_cons, List.reverse_nil, List.nil_append, List.singleton_append,
      List.append_assoc] at this
    rw [List.cons_append, lexFrom_cons, lexStep_plain _ _ hs.1]
    simp only [this]
    cases lexFrom .start rest <;> rfl

theorem TrimSpace_quote (s : Str) : TrimSpace (quote s) = quote s := by
  simp [TrimSpace, quote, List.dropWhile, isSpace]

theorem lexFrom_step (st st1 : LexState) (c : Char) (rest : Str) (toks : List Tok)
    (h : lexStep st c = some (st1, toks)) :
    lexFrom st (c :: rest) = (lexFrom st1 rest).map (fun more => toks ++ more) := by
  rw [lexFrom_cons, h]
  simp only []
  cases lexFrom st1 rest <;> rfl

theorem unmarshalString_quote (s : Str) (hs : s.all plainChar = true) :
    unmarshalString (quote s) = some s := by
  have h := lexFrom_string s hs [] []
  simp only [List.map_nil, List.reverse_nil, List.nil_append] at h
  have hl : lexFrom .start (quote s) = some [Tok.str s] := by
    rw [quote, List.cons_append, lexFrom_step .start (.str []) '"' _ [] (by decide), h]
    rfl
  simp only [unmarshalString, parseJSON, hl]
  rfl

theorem unmarshalFinish_reason (r : Str) (hr : r.all plainChar = true) :
    unmarshalFinish ("\x7b\"finishReason\":".data ++ quote r ++ "\x7d".data) =
      some { CosineFinishEvent.zero with FinishReason := r } := by
  have h := lexFrom_string r hr "\x7d".data []
  have hk := lexFrom_string "finishReason".data (by decide) (':' :: quote r ++ "\x7d".data) []
  simp only [List.map_nil, List.reverse_nil, List.nil_append] at h hk
  have hl : lexFrom .start ("\x7b\"finishReason\":".data ++ quote r ++ "\x7d".data) =
      some [Tok.lbrace, Tok.str "finishReason".data, Tok.colon, Tok.str r, Tok.rbrace] := by
    have e : "\x7b\"finishReason\":".data ++ quote r ++ "\x7d".data =
        '{' :: '"' :: ("finishReason".data ++ '"' :: (':' :: quote r ++ "\x7d".data)) := by
      simp [quote]
    rw [e, lexFrom_step .start .start '{' _ [.lbrace] (by decide),
      lexFrom_step .start (.str []) '"' _ [] (by decide), hk, List.cons_append,
      lexFrom_step .start .start ':' _ [.colon] (by decide), quote, List.cons_append,
      List.cons_append, lexFrom_step .start (.str []) '"' _ [] (by decide), List.append_assoc,
      List.singleton_append, h]
    rfl
  simp only [unmarshalFinish, parseJSON, hl]
  rfl

theorem pre_ne_nil (pre c : Str) (h : TrimSpace pre = c) (hc : c ≠ []) : pre ≠ [] := by
  intro h0
  rw [h0, TrimSpace_nil] at h
  exact hc h.symm

/-- C5: a line `pre:payload` whose text before the first colon trims to `0`
yields exactly one content event, whose text is the decoded string when the
trimmed payload decodes and the trimmed payload itself when it does not; the
literal of any text of plain characters decodes to that text; `0:"hello"` gives
the content `hello` and `0:not-json` the content `not-json`. -/
theorem parseLine_zero_line (pre payload : Str) (hpre : ':' ∉ pre)
    (h0 : TrimSpace pre = "0".data) :
    (∃ text, parseLine (pre ++ ':' :: payload) =
        some { Kind := "content".data, Content := text, Finish := none } ∧
      (∀ s, unmarshalString (TrimSpace payload) = some s → text = s) ∧
      (unmarshalString (TrimSpace payload) = none → text = TrimSpace payload)) ∧
    (∀ s : Str, s.all plainChar = true →
      parseLine ("0:".data ++ quote s) =
        some { Kind := "content".data, Content := s, Finish := none }) ∧
    parseLine "0:\"hello\"".data =
      some { Kind := "content".data, Content := "hello".data, Finish := none } ∧
    parseLine "0:not-json".data =
      some { Kind := "content".data, Content := "not-json".data, Finish := none } := by
  refine ⟨?_, ?_, by decide, by decide⟩
  · rw [parseLine_split pre payload hpre (pre_ne_nil pre _ h0 (by decide)), if_pos h0]
    cases h : unmarshalString (TrimSpace payload) with
    | none => exact ⟨_, rfl, by simp, fun _ => rfl⟩
    | some s => exact ⟨_, rfl, by simp, by simp⟩
  · intro s hs
    have := parseLine_split "0".data (quote s) (by decide) (by decide)
    rw [if_pos (by decide), TrimSpace_quote, unmarshalString_quote s hs] at this
    exact this

/-- Witness of C5: the line ` 0 : "a\nb" ` has a padded prefix and payload and
an escape in its literal; it yields the content `a`, line feed, `b`. -/
theorem parseLine_zero_line_witness :
    ':' ∉ " 0 ".data ∧ TrimSpace " 0 ".data = "0".data ∧
    parseLine (" 0 ".data ++ ':' :: " \"a\\nb\" ".data) =
      some { Kind := "content".data, Content := "a\nb".data, Finish := none } := by
  obtain ⟨text, h1, h2, -⟩ :=
    (parseLine_zero_line " 0 ".data " \"a\\nb\" ".data (by decide) (by decide)).1
  have ht : text = "a\nb".data := h2 _ (by decide)
  rw [ht] at h1
  exact ⟨by decide, by decide, h1⟩

/-- C6: a line `pre:payload` whose text before the first colon trims to `e`
yields exactly one finish event, carrying the decoded object when the trimmed
payload decodes and a finish with reason `stop` when it does not; an object with
a `finishReason` of plain characters gives that reason; the reason `length` is
decoded from its object, and `e:garbage` gives the reason `stop`. -/
theorem parseLine_e_line (pre payload : Str) (hpre : ':' ∉ pre)
    (he : TrimSpace pre = "e".data) :
    (∃ finish, parseLine (pre ++ ':' :: payload) =
        some { Kind := "finish".data, Content := [], Finish := some finish } ∧
      (∀ f, unmarshalFinish (TrimSpace payload) = some f → finish = f) ∧
      (unmarshalFinish (TrimSpace payload) = none →
        finish = { CosineFinishEvent.zero with FinishReason := "stop".data })) ∧
    (∀ r : Str, r.all plainChar = true →
      parseLine ("e:\x7b\"finishReason\":".data ++ quote r ++ "\x7d".data) =
        some { Kind := "finish".data, Content := [],
               Finish := some { CosineFinishEvent.zero with FinishReason := r } }) ∧
    parseLine "e:\x7b\"finishReason\":\"length\"\x7d".data =
      some { Kind := "finish".data, Content := [],
             Finish := some { CosineFinishEvent.zero with FinishReason := "length".data } } ∧
    parseLine "e:garbage".data =
      some { Kind := "finish".data, Content := [],
             Finish := some { CosineFinishEvent.zero with FinishReason := "stop".data } } := by
  refine ⟨?_, ?_, by decide, by decide⟩
  · rw [parseLine_split pre payload hpre (pre_ne_nil pre _ he (by decide)),
      if_neg (by rw [he]; decide), if_pos he]
    cases h : unmarshalFinish (TrimSpace payload) with
    | none => exact ⟨_, rfl, by simp, fun _ => rfl⟩
    | some s => exact ⟨_, rfl, by simp, by simp⟩
  · intro r hr
    have := parseLine_split "e".data ("\x7b\"finishReason\":".data ++ quote r ++ "\x7d".data)
      (by decide) (by decide)
    have ht : TrimSpace ("\x7b\"finishReason\":".data ++ quote r ++ "\x7d".data) =
        "\x7b\"finishReason\":".data ++ quote r ++ "\x7d".data := by
      simp [TrimSpace, quote, List.dropWhile, isSpace]
    rw [if_neg (by decide), if_pos (by decide), ht, unmarshalFinish_reason r hr] at this
    simpa using this

/-- Witness of C6: the line `e:[1,2]` carries valid JSON that is no object; it
yields a finish event with reason `stop`. -/
theorem parseLine_e_line_witness :
    ':' ∉ "e".data ∧ TrimSpace "e".data = "e".data ∧
    parseLine ("e".data ++ ':' :: "[1,2]".data) =
      some { Kind := "finish".data, Content := [],
             Finish := some { CosineFinishEvent.zero with FinishReason := "stop".data } } := by
  obtain ⟨finish, h1, -, h3⟩ :=
    (parseLine_e_line "e".data "[1,2]".data (by decide) (by decide)).1
  have hf := h3 (by decide)
  rw [hf] at h1
  exact ⟨by decide, by decide, h1⟩

/-- C7: a line `pre:payload` whose text before the first colon trims to `d`
yields a finish event carrying the decoded object when the trimmed payload
decodes, and no event at all when it does not; an object with a `finishReason`
of plain characters gives that reason, and `d:garbage` gives no event. -/
theorem parseLine_d_line (pre payload : Str) (hpre : ':' ∉ pre)
    (hd : TrimSpace pre = "d".data) :
    (∀ f, unmarshalFinish (TrimSpace payload) = some f →
      parseLine (pre ++ ':' :: payload) =
        some { Kind := "finish".data, Content := [], Finish := some f }) ∧
    (unmarshalFinish (TrimSpace payload) = none → parseLine (pre ++ ':' :: payload) = none) ∧
    (∀ r : Str, r.all plainChar = true →
      parseLine ("d:\x7b\"finishReason\":".data ++ quote r ++ "\x7d".data) =
        some { Kind := "finish".data, Content := [],
               Finish := some { CosineFinishEvent.zero with FinishReason := r } }) ∧
    parseLine "d:\x7b\"finishReason\":\"stop\"\x7d".data =
      some { Kind := "finish".data, Content := [],
             Finish := some { CosineFinishEvent.zero with FinishReason := "stop".data } } ∧
    parseLine "d:garbage".data = none := by
  have hs := parseLine_split pre payload hpre (pre_ne_nil pre _ hd (by decide))
  rw [if_neg (by rw [hd]; decide), if_neg (by rw [hd]; decide), if_pos hd] at hs
  refine ⟨?_, ?_, ?_, by decide, by decide⟩
  · intro f hf
    rw [hs, hf]
  · intro hf
    rw [hs, hf]
  · intro r hr
    have := parseLine_split "d".data ("\x7b\"finishReason\":".data ++ quote r ++ "\x7d".data)
      (by decide) (by decide)
    have ht : TrimSpace ("\x7b\"finishReason\":".data ++ quote r ++ "\x7d".data) =
        "\x7b\"finishReason\":".data ++ quote r ++ "\x7d".data := by
      simp [TrimSpace, quote, List.dropWhile, isSpace]
    rw [if_neg (by decide), if_neg (by decide), if_pos (by decide), ht,
      unmarshalFinish_reason r hr] at this
    simpa using this

/-- Witness of C7: the line `d:` followed by an object with reason `stop` and
token counts yields a finish event with these, and `d:nope` yields nothing. -/
theorem parseLine_d_line_witness :
    ':' ∉ "d".data ∧ TrimSpace "d".data = "d".data ∧
    parseLine ("d".data ++ ':' ::
        "\x7b\"finishReason\":\"stop\",\"usage\":\x7b\"promptTokens\":7,\"completionTokens\":null\x7d\x7d".data) =
      some { Kind := "finish".data, Content := [],
             Finish := some { FinishReason := "stop".data,
                              Usage := { PromptTokens := some 7, CompletionTokens := none },
                              IsContinued := false } } ∧
    parseLine ("d".data ++ ':' :: "nope".data) = none :=
  ⟨by decide, by decide,
    (parseLine_d_line "d".data
      "\x7b\"finishReason\":\"stop\",\"usage\":\x7b\"promptTokens\":7,\"completionTokens\":null\x7d\x7d".data
      (by decide) (by decide)).1 _ (by decide),
    (parseLine_d_line "d".data "nope".data (by decide) (by decide)).2.1 (by decide)⟩

/-! ### `ParseCosineStream` and `CollectFullResponse` -/

theorem parseLine_kinds (line : Str) (ev : StreamEvent) (h : parseLine line = some ev) :
    (ev.Kind = "content".data ∧ ev.Finish = none) ∨
      (ev.Kind = "finish".data ∧ ∃ f, ev.Finish = some f) := by
  unfold parseLine at h
  simp only at h
  split at h
  · simp at h
  · split at h
    · split at h <;> (simp only [Option.some.injEq] at h; subst h; left; exact ⟨rfl, rfl⟩)
    · split at h
      · split at h <;> (simp only [Option.some.injEq] at h; subst h; right; exact ⟨rfl, _, rfl⟩)
      · split at h
        · split at h
          · simp at h
          · simp only [Option.some.injEq] at h; subst h; right; exact ⟨rfl, _, rfl⟩
        · simp at h

theorem lineEvents_kinds (lines : List Str) (ev : StreamEvent) (h : ev ∈ lineEvents lines) :
    (ev.Kind = "content".data ∧ ev.Finish = none) ∨
      (ev.Kind = "finish".data ∧ ∃ f, ev.Finish = some f) := by
  simp only [lineEvents, List.mem_filterMap] at h
  obtain ⟨line, -, hl⟩ := h
  split at hl
  · simp at hl
  · exact parseLine_kinds line ev hl

theorem lineEvents_cons (line : Str) (rest : List Str) :
    lineEvents (line :: rest) =
      (if line.length = 0 then [] else (parseLine line).toList) ++ lineEvents rest := by
  simp only [lineEvents, List.filterMap_cons]
  split
  · rename_i h
    split at h
    · rename_i h0; simp [h0]
    · rename_i h0; simp [h0, h]
  · rename_i b h
    split at h
    · simp at h
    · rename_i h0; simp [h0, h]

theorem produceStep_events (c c1 : ChanState) (h : produceStep c = some c1) :
    c1.eventCh ++ lineEvents c1.lines = c.eventCh ++ lineEvents c.lines := by
  simp only [produceStep] at h
  split at h
  · split at h
    · rename_i line rest hl
      rw [hl, lineEvents_cons]
      split at h
      · rename_i h0
        simp only [Option.some.injEq] at h; subst h
        simp [h0]
      · rename_i h0
        split at h
        · rename_i hp
          simp only [Option.some.injEq] at h; subst h
          simp [h0, hp]
        · rename_i event hp
          split at h
          · simp only [Option.some.injEq] at h; subst h
            simp [h0, hp]
          · simp at h
    · split at h <;> (simp only [Option.some.injEq] at h; subst h; rfl)
  · simp only [Option.some.injEq] at h; subst h; rfl
  · simp only [Option.some.injEq] at h; subst h; rfl
  · simp at h

theorem foldl_collectStep (events : List StreamEvent) (acc : Str × Option CosineFinishEvent) :
    events.foldl collectStep acc =
      (acc.1 ++ ((events.filter (fun e => e.Kind = "content".data)).map
          (fun e => e.Content)).flatten,
       match (events.filter (fun e => e.Kind = "finish".data)).getLast? with
       | some e => e.Finish
       | none => acc.2) := by
  induction events using List.reverseRecOn with
  | nil => simp
  | append_singleton l e ih =>
    rw [List.foldl_append, ih]
    simp only [List.foldl_cons, List.foldl_nil, collectStep, List.filter_append, List.map_append,
      List.flatten_append, List.getLast?_append]
    by_cases hc : e.Kind = "content".data
    · have hf : ¬ e.Kind = "finish".data := by rw [hc]; decide
      simp [hc, List.filter_cons]
    · by_cases hf : e.Kind = "finish".data
      · simp [hf, List.filter_cons]
      · simp [hc, hf, List.filter_cons]

theorem collectInv_init (reader : Reader) : CollectInv reader (CollectState.init reader) := by
  refine ⟨⟨[], ?_, rfl⟩, rfl, ?_, ?_, ?_⟩
  · simp [CollectState.init, ChanState.init, ParseCosineStream]
  · simp [CollectState.init, ChanState.init]
  · simp [CollectState.init]
  · simp [CollectState.init]

theorem collectInv_produce (reader : Reader) (s : CollectState) (c : ChanState)
    (hinv : CollectInv reader s) (hc : produceStep s.chan = some c) :
    CollectInv reader { s with chan := c } := by
  obtain ⟨⟨consumed, hev, hacc⟩, herr, hpc, hrd, hret⟩ := hinv
  have hevents := produceStep_events _ _ hc
  refine ⟨⟨consumed, ?_, hacc⟩, ?_, ?_, ?_, hret⟩
  · rw [List.append_assoc, hevents, ← List.append_assoc]; exact hev
  · simp only [produceStep] at hc
    split at hc
    · split at hc
      · split at hc
        · simp only [Option.some.injEq] at hc; subst hc; exact herr
        · split at hc
          · simp only [Option.some.injEq] at hc; subst hc; exact herr
          · split at hc
            · simp only [Option.some.injEq] at hc; subst hc; exact herr
            · simp at hc
      · split at hc <;> (simp only [Option.some.injEq] at hc; subst hc; exact herr)
    · simp only [Option.some.injEq] at hc; subst hc; exact herr
    · simp only [Option.some.injEq] at hc; subst hc; exact herr
    · simp at hc
  · simp only [produceStep] at hc
    split at hc
    · rename_i hsc
      rw [hsc] at hpc
      split at hc
      · split at hc
        · simp only [Option.some.injEq] at hc; subst hc; simpa [hsc] using hpc
        · split at hc
          · simp only [Option.some.injEq] at hc; subst hc; simpa [hsc] using hpc
          · split at hc
            · simp only [Option.some.injEq] at hc; subst hc; simpa [hsc] using hpc
            · simp at hc
      · rename_i hl
        split at hc
        · rename_i err he
          simp only [Option.some.injEq] at hc; subst hc
          simp only at hpc ⊢
          exact ⟨hl, hpc.1, hpc.2.1, he.symm⟩
        · rename_i he
          simp only [Option.some.injEq] at hc; subst hc
          simp only at hpc ⊢
          exact ⟨hl, hpc.1, hpc.2.1, by rw [hpc.2.2, he]⟩
    · rename_i hsc
      rw [hsc] at hpc
      simp only [Option.some.injEq] at hc; subst hc
      simp only at hpc ⊢
      exact ⟨hpc.1, hpc.2.1, trivial, hpc.2.2.2⟩
    · rename_i hsc
      rw [hsc] at hpc
      simp only [Option.some.injEq] at hc; subst hc
      simp only at hpc ⊢
      exact ⟨hpc.1, trivial, hpc.2.2.1, Or.inl hpc.2.2.2⟩
    · simp at hc
  · intro hr
    obtain ⟨h1, h2⟩ := hrd hr
    have hex : s.chan.pc = .exited := by
      cases hp : s.chan.pc <;> rw [hp] at hpc <;> simp_all
    simp [produceStep, hex] at hc

theorem collectInv_collect (reader : Reader) (s s1 : CollectState)
    (hinv : CollectInv reader s) (hstep : collectRecvStep s = some s1) :
    CollectInv reader s1 := by
  obtain ⟨⟨consumed, hev, hacc⟩, herr, hpc, hrd, hret⟩ := hinv
  simp only [collectRecvStep] at hstep
  split at hstep
  · rename_i hrg
    split at hstep
    · rename_i event rest hch
      simp only [Option.some.injEq] at hstep; subst hstep
      refine ⟨⟨consumed ++ [event], ?_, ?_⟩, herr, ?_, ?_, ?_⟩
      · rw [hch] at hev; simpa using hev
      · simp [hacc, List.foldl_append]
      · cases hp : s.chan.pc <;> rw [hp] at hpc <;> simp_all
      · simp [hrg]
      · simp [hrg]
    · rename_i hch
      split at hstep
      · rename_i hcl
        simp only [Option.some.injEq] at hstep; subst hstep
        refine ⟨⟨consumed, hev, hacc⟩, herr, ?_, ?_, ?_⟩
        · cases hp : s.chan.pc <;> rw [hp] at hpc <;> simp_all
        · intro _; exact ⟨hch, hcl⟩
        · simp
      · simp at hstep
  · rename_i hre
    obtain ⟨hempty, hclosed⟩ := hrd hre
    have hex : s.chan.pc = .exited := by
      cases hp : s.chan.pc <;> rw [hp] at hpc <;> simp_all
    rw [hex] at hpc
    simp only at hpc
    obtain ⟨hlines, -, herrcl, herrch⟩ := hpc
    have herrch1 : s.chan.errCh = s.chan.scanErr := by
      rcases herrch with h | ⟨r, hr⟩
      · exact h
      · rw [hre] at hr; cases hr
    have hall : consumed = (ParseCosineStream reader).1 := by
      rw [← hev, hempty, hlines]; simp [lineEvents]
    split at hstep
    · rename_i err he
      simp only [Option.some.injEq] at hstep; subst hstep
      refine ⟨⟨consumed, by simpa using hev, hacc⟩, herr, ?_, ?_, ?_⟩
      · simp only [hex]
        exact ⟨hlines, hclosed, herrcl, Or.inr ⟨_, rfl⟩⟩
      · simp
      · intro r hr
        simp only [CollectPC.returned.injEq] at hr
        rw [← hr]
        have : (ParseCosineStream reader).2 = some err := by rw [← herr, ← herrch1, he]
        simp [CollectFullResponse, this]
    · rename_i he
      rw [if_pos herrcl] at hstep
      simp only [Option.some.injEq] at hstep; subst hstep
      refine ⟨⟨consumed, hev, hacc⟩, herr, ?_, ?_, ?_⟩
      · simp only [hex]
        exact ⟨hlines, hclosed, herrcl, Or.inr ⟨_, rfl⟩⟩
      · simp
      · intro r hr
        simp only [CollectPC.returned.injEq] at hr
        rw [← hr]
        have : (ParseCosineStream reader).2 = none := by rw [← herr, ← herrch1, he]
        simp [CollectFullResponse, this, hacc, hall]
  · simp at hstep

theorem runCollect_inv (reader : Reader) (schedule : List CollectMove) :
    ∀ s s1, CollectInv reader s → runCollect schedule s = some s1 → CollectInv reader s1 := by
  induction schedule with
  | nil =>
    intro s s1 hinv hrun
    simp only [runCollect, Option.some.injEq] at hrun
    exact hrun ▸ hinv
  | cons m ms ih =>
    intro s s1 hinv hrun
    simp only [runCollect] at hrun
    split at hrun
    · simp at hrun
    · rename_i s2 hs
      refine ih s2 s1 ?_ hrun
      cases m with
      | produce =>
        simp only [collectMoveStep, Option.map_eq_some'] at hs
        obtain ⟨c, hc, rfl⟩ := hs
        exact collectInv_produce reader s c hinv hc
      | collect => exact collectInv_collect reader s s2 hinv hs

theorem runCollect_append (xs ys : List CollectMove) :
    ∀ s, runCollect (xs ++ ys) s = (runCollect xs s).bind (runCollect ys) := by
  induction xs with
  | nil => intro s; rfl
  | cons m ms ih =>
    intro s
    simp only [List.cons_append, runCollect]
    cases collectMoveStep m s with
    | none => rfl
    | some s1 => exact ih s1

theorem lockstep_returns (lines : List Str) :
    ∀ s : CollectState, s.pc = .ranging → s.chan.pc = .scanning → s.chan.eventCh = [] →
      s.chan.errCh = none → s.chan.lines = lines →
      ∃ s1 r, runCollect (lockstepSchedule lines) s = some s1 ∧ s1.pc = .returned r := by
  induction lines with
  | nil =>
    intro s hpc hcpc hch herr hl
    cases he : s.chan.scanErr with
    | none =>
      simp [lockstepSchedule, runCollect, collectMoveStep, produceStep, collectRecvStep, hpc,
        hcpc, hch, hl, he, herr]
    | some err =>
      simp [lockstepSchedule, runCollect, collectMoveStep, produceStep, collectRecvStep, hpc,
        hcpc, hch, hl, he, herr]
  | cons line rest ih =>
    intro s hpc hcpc hch herr hl
    rw [lockstepSchedule, runCollect_append]
    by_cases h0 : line.length = 0
    · rw [if_pos h0]
      have hstep : runCollect [.produce] s =
          some { s with chan := { s.chan with lines := rest } } := by
        simp [runCollect, collectMoveStep, produceStep, hcpc, hl, h0]
      rw [hstep]
      exact ih _ hpc hcpc hch herr rfl
    · rw [if_neg h0]
      cases hp : parseLine line with
      | none =>
        have hstep : runCollect [.produce] s =
            some { s with chan := { s.chan with lines := rest } } := by
          simp [runCollect, collectMoveStep, produceStep, hcpc, hl, h0, hp]
        simp only [hstep]
        exact ih _ hpc hcpc hch herr rfl
      | some event =>
        have hstep : runCollect [.produce, .collect] s =
            some { s with chan := { s.chan with lines := rest },
                          acc := collectStep s.acc event } := by
          simp [runCollect, collectMoveStep, produceStep, collectRecvStep, hcpc, hl, h0, hp, hch,
            hpc, eventChCap]
        simp only [hstep]
        exact ih _ hpc hcpc hch herr rfl

/-- The result of `CollectFullResponse` does not depend on how the goroutine
and the collector are interleaved: whatever schedule lets the collector return,
it returns the value of `CollectFullResponse`, and the lockstep schedule lets
it return. -/
theorem CollectFullResponse_any_schedule (reader : Reader) :
    (∀ schedule s r, runCollect schedule (CollectState.init reader) = some s →
      s.pc = .returned r → r = CollectFullResponse reader) ∧
    ∃ s, runCollect (lockstepSchedule (Scanner reader).1) (CollectState.init reader) = some s ∧
      s.pc = .returned (CollectFullResponse reader) := by
  have hsafe : ∀ schedule s r, runCollect schedule (CollectState.init reader) = some s →
      s.pc = .returned r → r = CollectFullResponse reader := by
    intro schedule s r hrun hr
    exact (runCollect_inv reader schedule _ s (collectInv_init reader) hrun).2.2.2.2 r hr
  refine ⟨hsafe, ?_⟩
  obtain ⟨s1, r, hrun, hr⟩ :=
    lockstep_returns (Scanner reader).1 (CollectState.init reader) rfl rfl rfl rfl rfl
  refine ⟨s1, hrun, ?_⟩
  rw [hr, hsafe _ s1 r hrun hr]

theorem CollectFullResponse_of_scan (reader : Reader) (lines : List Str)
    (hscan : Scanner reader = (lines, none)) :
    CollectFullResponse reader =
      ((((lineEvents lines).filter (fun e => e.Kind = "content".data)).map
          (fun e => e.Content)).flatten,
       (((lineEvents lines).filter (fun e => e.Kind = "finish".data)).getLast?).bind
          (fun e => e.Finish),
       none) ∧
    (∀ schedule s r, runCollect schedule (CollectState.init reader) = some s →
      s.pc = .returned r →
      r = ((((lineEvents lines).filter (fun e => e.Kind = "content".data)).map
              (fun e => e.Content)).flatten,
           (((lineEvents lines).filter (fun e => e.Kind = "finish".data)).getLast?).bind
              (fun e => e.Finish),
           none)) ∧
    (∃ s, runCollect (lockstepSchedule lines) (CollectState.init reader) = some s ∧
      s.pc = .returned
        ((((lineEvents lines).filter (fun e => e.Kind = "content".data)).map
            (fun e => e.Content)).flatten,
         (((lineEvents lines).filter (fun e => e.Kind = "finish".data)).getLast?).bind
            (fun e => e.Finish),
         none)) ∧
    CollectFullResponse
        { data := "0:\"Hi\"\n0:\" there\"\ne:\x7b\"finishReason\":\"stop\"\x7d\n".data,
          err := none } =
      ("Hi there".data, some { CosineFinishEvent.zero with FinishReason := "stop".data }, none) := by
  have hval : CollectFullResponse reader =
      ((((lineEvents lines).filter (fun e => e.Kind = "content".data)).map
          (fun e => e.Content)).flatten,
       (((lineEvents lines).filter (fun e => e.Kind = "finish".data)).getLast?).bind
          (fun e => e.Finish),
       none) := by
    simp only [CollectFullResponse, ParseCosineStream, hscan, foldl_collectStep, List.nil_append]
    cases ((lineEvents lines).filter (fun e => e.Kind = "finish".data)).getLast? <;> rfl
  obtain ⟨hall, s, hrun, hret⟩ := CollectFullResponse_any_schedule reader
  rw [hscan] at hrun
  rw [hval] at hall hret
  exact ⟨hval, hall, ⟨s, hrun, hret⟩, by decide⟩

/-! ### `handleStreamResponse` -/

theorem streamStep_inv (chatID : Str) (created : Int) (model : Str) (events : List StreamEvent)
    (m : Move) (s s1 : StreamState) (hinv : StreamInv chatID created model events s)
    (hstep : streamStep chatID created model m s = some s1) :
    StreamInv chatID created model events s1 := by
  obtain ⟨delivered, hev, hout⟩ := hinv
  cases m with
  | produce =>
    simp only [streamStep, Option.map_eq_some'] at hstep
    obtain ⟨c, hc, rfl⟩ := hstep
    refine ⟨delivered, ?_, hout⟩
    rw [List.append_assoc, produceStep_events _ _ hc, ← List.append_assoc]
    exact hev
  | recvEvent =>
    simp only [streamStep, recvEventStep] at hstep
    split at hstep
    · simp at hstep
    · rename_i hd
      simp only [hd, Bool.false_eq_true, if_false, List.append_nil] at hout
      split at hstep
      · rename_i event rest hch
        simp only [Option.some.injEq] at hstep; subst hstep
        refine ⟨delivered ++ [event], ?_, ?_⟩
        · rw [hch] at hev; simpa using hev
        · simp [hout, hd, List.flatMap_append]
      · split at hstep
        · simp only [Option.some.injEq] at hstep; subst hstep
          exact ⟨delivered, hev, by simp [hout]⟩
        · simp at hstep
  | recvErr =>
    simp only [streamStep, recvErrStep] at hstep
    split at hstep
    · simp at hstep
    · rename_i hd
      simp only [hd, Bool.false_eq_true, if_false, List.append_nil] at hout
      split at hstep
      · simp only [Option.some.injEq] at hstep; subst hstep
        exact ⟨delivered, hev, by simp [hout]⟩
      · split at hstep
        · simp only [Option.some.injEq] at hstep; subst hstep
          exact ⟨delivered, hev, by simp [hout]⟩
        · simp at hstep

theorem runStream_inv (chatID : Str) (created : Int) (model : Str) (events : List StreamEvent)
    (schedule : List Move) :
    ∀ s s1, StreamInv chatID created model events s →
      runStream chatID created model schedule s = some s1 →
      StreamInv chatID created model events s1 := by
  induction schedule with
  | nil =>
    intro s s1 hinv hrun
    simp only [runStream, Option.some.injEq] at hrun
    exact hrun ▸ hinv
  | cons m ms ih =>
    intro s s1 hinv hrun
    simp only [runStream] at hrun
    split at hrun
    · simp at hrun
    · rename_i s2 hs
      exact ih s2 s1 (streamStep_inv chatID created model events m s s2 hinv hs) hrun

theorem init_inv (chatID : Str) (created : Int) (model : Str) (body : Reader) :
    StreamInv chatID created model (ParseCosineStream body).1 (StreamState.init body) :=
  ⟨[], by simp [StreamState.init, ChanState.init, ParseCosineStream],
    by simp [StreamState.init]⟩

/-- C9, the code at the failing input: for the body of two content lines and a
finish line, when the goroutine has sent its three events and closed `errCh`
and the relay's `select` then takes the error case, the sentinel is the only
record written and the three events are still in `eventCh`; when the relay
takes the event case throughout, the stream is the three chunks and then the
sentinel. -/
theorem sentinel_written_before_buffered_events :
    (∃ s, handleStreamResponse "chatcmpl-1".data 0 exampleBody "m".data
        [.produce, .produce, .produce, .produce, .produce, .recvErr] = some s ∧
      s.relayDone = true ∧ s.out = [Record.done] ∧
      s.chan.eventCh =
        [{ Kind := "content".data, Content := "Hi".data, Finish := none },
         { Kind := "content".data, Content := " there".data, Finish := none },
         { Kind := "finish".data, Content := [],
           Finish := some { CosineFinishEvent.zero with FinishReason := "stop".data } }]) ∧
    (∃ s, handleStreamResponse "chatcmpl-1".data 0 exampleBody "m".data
        [.produce, .produce, .produce, .produce, .produce, .produce, .recvEvent, .recvEvent,
         .recvEvent, .recvEvent] = some s ∧
      s.relayDone = true ∧
      s.out =
        [.data (contentChunk "chatcmpl-1".data 0 "m".data
            { Kind := "content".data, Content := "Hi".data, Finish := none }),
         .data (contentChunk "chatcmpl-1".data 0 "m".data
            { Kind := "content".data, Content := " there".data, Finish := none }),
         .data (finishChunk "chatcmpl-1".data 0 "m".data
            { Kind := "finish".data, Content := [],
              Finish := some { CosineFinishEvent.zero with FinishReason := "stop".data } }),
         .done]) := by
  refine ⟨⟨_, rfl, ?_⟩, ⟨_, rfl, ?_⟩⟩ <;> decide

/-- C10 fails as stated: a body without finish line, relayed to its end with
every event delivered, gives a stream without any finish chunk, and a body with
an `e` line and a `d` line gives a stream with two finish chunks. -/
theorem finish_chunks_not_exactly_one :
    (∃ s, handleStreamResponse "chatcmpl-1".data 0 { data := "0:\"Hi\"\n".data, err := none }
        "m".data [.produce, .recvEvent, .produce, .produce, .produce, .recvEvent] = some s ∧
      s.relayDone = true ∧ s.chan.eventCh = [] ∧
      s.out = [.data (contentChunk "chatcmpl-1".data 0 "m".data
                  { Kind := "content".data, Content := "Hi".data, Finish := none }),
               .done] ∧
      (s.out.filter Record.isFinish).length = 0) ∧
    (∃ s, handleStreamResponse "chatcmpl-1".data 0
        { data := "0:\"Hi\"\ne:\x7b\"finishReason\":\"stop\"\x7d\nd:\x7b\"finishReason\":\"stop\"\x7d\n".data,
          err := none }
        "m".data [.produce, .produce, .produce, .recvEvent, .recvEvent, .recvEvent, .produce,
          .produce, .produce, .recvEvent] = some s ∧
      s.relayDone = true ∧ s.chan.eventCh = [] ∧ s.out.getLast? = some Record.done ∧
      (s.out.filter Record.isFinish).length = 2) := by
  refine ⟨⟨_, rfl, ?_⟩, ⟨_, rfl, ?_⟩⟩ <;> decide

theorem isFinish_chunk (chatID : Str) (created : Int) (model : Str) (ev : StreamEvent) :
    Record.isFinish (.data (if ev.Kind = "finish".data then finishChunk chatID created model ev
      else contentChunk chatID created model ev)) = decide (ev.Kind = "finish".data) := by
  by_cases h : ev.Kind = "finish".data
  · rw [if_pos h, decide_eq_true h]; rfl
  · rw [if_neg h, decide_eq_false h]; rfl

theorem filter_isFinish_chunks (chatID : Str) (created : Int) (model : Str)
    (l : List StreamEvent) :
    ((l.map (fun ev => Record.data
        (if ev.Kind = "finish".data then finishChunk chatID created model ev
         else contentChunk chatID created model ev))).filter Record.isFinish).length =
      (l.filter (fun ev => ev.Kind = "finish".data)).length := by
  induction l with
  | nil => rfl
  | cons ev l ih =>
    rw [List.map_cons, List.filter_cons, isFinish_chunk, List.filter_cons]
    by_cases h : ev.Kind = "finish".data
    · rw [decide_eq_true h, if_pos rfl, if_pos rfl, List.length_cons, List.length_cons, ih]
    · rw [decide_eq_false h, if_neg (by simp), if_neg (by simp), ih]

theorem flatMap_relayWrite (chatID : Str) (created : Int) (model : Str) (l : List StreamEvent)
    (h : ∀ ev ∈ l, ev.Kind = "content".data ∨ ev.Kind = "finish".data) :
    l.flatMap (relayWrite chatID created model) =
      l.map (fun ev => Record.data
        (if ev.Kind = "finish".data then finishChunk chatID created model ev
         else contentChunk chatID created model ev)) := by
  induction l with
  | nil => rfl
  | cons ev l ih =>
    rw [List.flatMap_cons, List.map_cons, ih (fun e he => h e (List.mem_cons_of_mem _ he))]
    rcases h ev (List.mem_cons_self _ _) with hc | hf
    · have hnf : ¬ ev.Kind = "finish".data := by rw [hc]; decide
      rw [relayWrite, if_pos hc, if_neg hnf]; rfl
    · have hnc : ¬ ev.Kind = "content".data := by rw [hf]; decide
      rw [relayWrite, if_neg hnc, if_pos hf, if_pos hf]; rfl

theorem streamStep_received (chatID : Str) (created : Int) (model : Str) (m : Move)
    (s s1 : StreamState) (delivered : List StreamEvent)
    (hstep : streamStep chatID created model m s = some s1)
    (hout : s.out = delivered.flatMap (relayWrite chatID created model) ++
      (if s.relayDone then [Record.done] else [])) :
    s.chan.eventCh ++ lineEvents s.chan.lines =
      takenEvent m s ++ (s1.chan.eventCh ++ lineEvents s1.chan.lines) ∧
    s1.out = (delivered ++ takenEvent m s).flatMap (relayWrite chatID created model) ++
      (if s1.relayDone then [Record.done] else []) := by
  cases m with
  | produce =>
    simp only [streamStep, Option.map_eq_some'] at hstep
    obtain ⟨c, hc, rfl⟩ := hstep
    refine ⟨?_, ?_⟩
    · simp only [takenEvent, List.nil_append]
      exact (produceStep_events _ _ hc).symm
    · simp only [takenEvent, List.append_nil]
      exact hout
  | recvEvent =>
    simp only [streamStep, recvEventStep] at hstep
    split at hstep
    · simp at hstep
    · rename_i hd
      simp only [hd, Bool.false_eq_true, if_false, List.append_nil] at hout
      split at hstep
      · rename_i event rest hch
        simp only [Option.some.injEq] at hstep; subst hstep
        simp only [takenEvent, hch]
        refine ⟨by simp, ?_⟩
        simp [hout, hd, List.flatMap_append]
      · rename_i hch
        split at hstep
        · simp only [Option.some.injEq] at hstep; subst hstep
          simp only [takenEvent, hch]
          refine ⟨by simp, ?_⟩
          simp [hout]
        · simp at hstep
  | recvErr =>
    simp only [streamStep, recvErrStep] at hstep
    split at hstep
    · simp at hstep
    · rename_i hd
      simp only [hd, Bool.false_eq_true, if_false, List.append_nil] at hout
      split at hstep
      · simp only [Option.some.injEq] at hstep; subst hstep
        refine ⟨by simp [takenEvent], ?_⟩
        simp [hout, takenEvent]
      · split at hstep
        · simp only [Option.some.injEq] at hstep; subst hstep
          refine ⟨by simp [takenEvent], ?_⟩
          simp [hout, takenEvent]
        · simp at hstep

theorem runStream_received (chatID : Str) (created : Int) (model : Str) (schedule : List Move) :
    ∀ (s s1 : StreamState) (delivered : List StreamEvent),
      runStream chatID created model schedule s = some s1 →
      s.out = delivered.flatMap (relayWrite chatID created model) ++
        (if s.relayDone then [Record.done] else []) →
      s.chan.eventCh ++ lineEvents s.chan.lines =
        receivedEvents chatID created model schedule s ++
          (s1.chan.eventCh ++ lineEvents s1.chan.lines) ∧
      s1.out = (delivered ++ receivedEvents chatID created model schedule s).flatMap
          (relayWrite chatID created model) ++ (if s1.relayDone then [Record.done] else []) := by
  induction schedule with
  | nil =>
    intro s s1 delivered hrun hout
    simp only [runStream, Option.some.injEq] at hrun
    subst hrun
    simp only [receivedEvents, List.nil_append, List.append_nil]
    exact ⟨trivial, hout⟩
  | cons m ms ih =>
    intro s s1 delivered hrun hout
    simp only [runStream] at hrun
    cases hs : streamStep chatID created model m s with
    | none => rw [hs] at hrun; simp at hrun
    | some s2 =>
      rw [hs] at hrun
      simp only at hrun
      obtain ⟨h1, h2⟩ := streamStep_received chatID created model m s s2 delivered hs hout
      obtain ⟨h3, h4⟩ := ih s2 s1 _ hrun h2
      simp only [receivedEvents, hs]
      refine ⟨?_, ?_⟩
      · rw [h1, h3, List.append_assoc]
      · rw [h4, List.append_assoc]

theorem runStream_append (chatID : Str) (created : Int) (model : Str) (xs ys : List Move) :
    ∀ s, runStream chatID created model (xs ++ ys) s =
      (runStream chatID created model xs s).bind (runStream chatID created model ys) := by
  induction xs with
  | nil => intro s; rfl
  | cons m ms ih =>
    intro s
    simp only [List.cons_append, runStream]
    cases streamStep chatID created model m s with
    | none => rfl
    | some s1 => exact ih s1

theorem relaySchedule_finishes (chatID : Str) (created : Int) (model : Str) (lines : List Str) :
    ∀ s : StreamState, s.relayDone = false → s.chan.pc = .scanning → s.chan.eventCh = [] →
      s.chan.lines = lines →
      ∃ s1, runStream chatID created model (relaySchedule lines) s = some s1 ∧
        s1.relayDone = true ∧ s1.chan.eventCh = [] ∧ s1.chan.lines = [] := by
  induction lines with
  | nil =>
    intro s hd hcpc hch hl
    cases he : s.chan.scanErr with
    | none =>
      simp [relaySchedule, runStream, streamStep, produceStep, recvEventStep, hd, hcpc, hch, hl,
        he]
    | some err =>
      simp [relaySchedule, runStream, streamStep, produceStep, recvEventStep, hd, hcpc, hch, hl,
        he]
  | cons line rest ih =>
    intro s hd hcpc hch hl
    rw [relaySchedule, runStream_append]
    by_cases h0 : line.length = 0
    · rw [if_pos h0]
      have hstep : runStream chatID created model [.produce] s =
          some { s with chan := { s.chan with lines := rest } } := by
        simp [runStream, streamStep, produceStep, hcpc, hl, h0]
      rw [hstep]
      exact ih _ hd hcpc hch rfl
    · rw [if_neg h0]
      cases hp : parseLine line with
      | none =>
        have hstep : runStream chatID created model [.produce] s =
            some { s with chan := { s.chan with lines := rest } } := by
          simp [runStream, streamStep, produceStep, hcpc, hl, h0, hp]
        simp only [hstep]
        exact ih _ hd hcpc hch rfl
      | some event =>
        have hstep : runStream chatID created model [.produce, .recvEvent] s =
            some { s with chan := { s.chan with lines := rest },
                          out := s.out ++ relayWrite chatID created model event } := by
          simp [runStream, streamStep, produceStep, recvEventStep, hcpc, hl, h0, hp, hch, hd,
            eventChCap]
        simp only [hstep]
        exact ih _ hd hcpc hch rfl

/-- C10 as amended: under every schedule of the goroutine and the relay, the
events decoded from the body are the events the relay has taken from `eventCh`,
then those still buffered there, then those of the lines not yet scanned, and
the stream written is one chunk per event the relay has taken, in that order,
followed by the sentinel as its last record once the relay is done; a content
event gives a content chunk and a finish event a finish chunk that carries only
the finish reason, which is the event's reason, or `stop` when that reason is
empty; the stream has as many finish chunks as finish events were taken, none
being made up when there is none. For every body there is a schedule under
which the relay is done with every decoded event written. -/
theorem stream_chunks_follow_delivered_events (chatID : Str) (created : Int) (model : Str)
    (body : Reader) :
    (∀ (schedule : List Move) (s : StreamState),
      handleStreamResponse chatID created body model schedule = some s →
      (ParseCosineStream body).1 =
        receivedEvents chatID created model schedule (StreamState.init body) ++
          (s.chan.eventCh ++ lineEvents s.chan.lines) ∧
      s.out = (receivedEvents chatID created model schedule (StreamState.init body)).map
          (fun ev => Record.data
            (if ev.Kind = "finish".data then finishChunk chatID created model ev
             else contentChunk chatID created model ev)) ++
          (if s.relayDone then [Record.done] else []) ∧
      (∀ ev ∈ receivedEvents chatID created model schedule (StreamState.init body),
        ev.Kind = "content".data ∨ ev.Kind = "finish".data) ∧
      (∀ ev ∈ receivedEvents chatID created model schedule (StreamState.init body),
        ev.Kind = "finish".data → ∃ f, ev.Finish = some f ∧
        (finishChunk chatID created model ev).Choices =
          [{ Index := 0, Message := none, Delta := some { Role := [], Content := [] },
             FinishReason :=
               some (if f.FinishReason = [] then "stop".data else f.FinishReason) }]) ∧
      (s.out.filter Record.isFinish).length =
        ((receivedEvents chatID created model schedule (StreamState.init body)).filter
          (fun ev => ev.Kind = "finish".data)).length) ∧
    (∃ s, handleStreamResponse chatID created body model (relaySchedule (Scanner body).1) =
        some s ∧
      s.relayDone = true ∧
      receivedEvents chatID created model (relaySchedule (Scanner body).1)
        (StreamState.init body) = (ParseCosineStream body).1 ∧
      s.out = (ParseCosineStream body).1.map (fun ev => Record.data
          (if ev.Kind = "finish".data then finishChunk chatID created model ev
           else contentChunk chatID created model ev)) ++ [Record.done]) := by
  have hall : ∀ (schedule : List Move) (s : StreamState),
      handleStreamResponse chatID created body model schedule = some s →
      (ParseCosineStream body).1 =
        receivedEvents chatID created model schedule (StreamState.init body) ++
          (s.chan.eventCh ++ lineEvents s.chan.lines) ∧
      (∀ ev ∈ receivedEvents chatID created model schedule (StreamState.init body),
        (ev.Kind = "content".data ∧ ev.Finish = none) ∨
          (ev.Kind = "finish".data ∧ ∃ f, ev.Finish = some f)) ∧
      s.out = (receivedEvents chatID created model schedule (StreamState.init body)).map
          (fun ev => Record.data
            (if ev.Kind = "finish".data then finishChunk chatID created model ev
             else contentChunk chatID created model ev)) ++
          (if s.relayDone then [Record.done] else []) := by
    intro schedule s hrun
    obtain ⟨hev, hout⟩ := runStream_received chatID created model schedule
      (StreamState.init body) s [] hrun (by simp [StreamState.init])
    have hev1 : (ParseCosineStream body).1 =
        receivedEvents chatID created model schedule (StreamState.init body) ++
          (s.chan.eventCh ++ lineEvents s.chan.lines) := by
      rw [← hev]
      simp [StreamState.init, ChanState.init, ParseCosineStream]
    have hk : ∀ ev ∈ receivedEvents chatID created model schedule (StreamState.init body),
        (ev.Kind = "content".data ∧ ev.Finish = none) ∨
          (ev.Kind = "finish".data ∧ ∃ f, ev.Finish = some f) := by
      intro ev hmem
      have hmem2 : ev ∈ (ParseCosineStream body).1 := by
        rw [hev1]; exact List.mem_append_left _ hmem
      exact lineEvents_kinds _ ev hmem2
    refine ⟨hev1, hk, ?_⟩
    rw [hout, List.nil_append, flatMap_relayWrite chatID created model _
      (fun ev hmem => (hk ev hmem).elim (fun h => Or.inl h.1) (fun h => Or.inr h.1))]
  refine ⟨?_, ?_⟩
  · intro schedule s hrun
    obtain ⟨hev, hk, hout⟩ := hall schedule s hrun
    refine ⟨hev, hout, ?_, ?_, ?_⟩
    · intro ev hmem
      rcases hk ev hmem with h | h
      · exact Or.inl h.1
      · exact Or.inr h.1
    · intro ev hmem hf
      rcases hk ev hmem with h | h
      · rw [h.1] at hf; exact absurd hf (by decide)
      · obtain ⟨f, hfin⟩ := h.2
        refine ⟨f, hfin, ?_⟩
        simp only [finishChunk, finishReasonOf, hfin]
        by_cases hr : f.FinishReason = [] <;> simp [hr]
    · rw [hout, List.filter_append, List.length_append,
        filter_isFinish_chunks chatID created model]
      cases s.relayDone <;> rfl
  · obtain ⟨s, hrun, hdone, hch, hlines⟩ :=
      relaySchedule_finishes chatID created model (Scanner body).1 (StreamState.init body)
        rfl rfl rfl rfl
    obtain ⟨hev, -, hout⟩ := hall _ s hrun
    rw [hch, hlines] at hev
    have hrec : receivedEvents chatID created model (relaySchedule (Scanner body).1)
        (StreamState.init body) = (ParseCosineStream body).1 := by
      rw [hev]; simp [lineEvents]
    refine ⟨s, hrun, hdone, hrec, ?_⟩
    rw [hout, hrec, hdone]
    rfl

/-- Witness of C10 as amended: the example body relayed with every event
taken; the relay is done and the stream is the chunks of the three events and
then the sentinel, four records with one finish chunk. -/
theorem stream_chunks_follow_delivered_events_witness :
    (handleStreamResponse "chatcmpl-1".data 0 exampleBody "m".data
        [.produce, .recvEvent, .produce, .recvEvent, .produce, .recvEvent, .produce, .produce,
         .produce, .recvEvent]).map
      (fun s => (s.relayDone, s.out.length, (s.out.filter Record.isFinish).length)) =
        some (true, 4, 1) ∧
    receivedEvents "chatcmpl-1".data 0 "m".data
        [.produce, .recvEvent, .produce, .recvEvent, .produce, .recvEvent, .produce, .produce,
         .produce, .recvEvent] (StreamState.init exampleBody) =
      (ParseCosineStream exampleBody).1 ∧
    ∃ s,
      handleStreamResponse "chatcmpl-1".data 0 exampleBody "m".data
        [.produce, .recvEvent, .produce, .recvEvent, .produce, .recvEvent, .produce, .produce,
         .produce, .recvEvent] = some s ∧
      s.out = (ParseCosineStream exampleBody).1.map (fun ev => Record.data
          (if ev.Kind = "finish".data then finishChunk "chatcmpl-1".data 0 "m".data ev
           else contentChunk "chatcmpl-1".data 0 "m".data ev)) ++
        (if s.relayDone then [Record.done] else []) := by
  have hrun : (handleStreamResponse "chatcmpl-1".data 0 exampleBody "m".data
      [.produce, .recvEvent, .produce, .recvEvent, .produce, .recvEvent, .produce, .produce,
       .produce, .recvEvent]).map
      (fun s => (s.relayDone, s.out.length, (s.out.filter Record.isFinish).length)) =
        some (true, 4, 1) := by decide
  have hrec : receivedEvents "chatcmpl-1".data 0 "m".data
      [.produce, .recvEvent, .produce, .recvEvent, .produce, .recvEvent, .produce, .produce,
       .produce, .recvEvent] (StreamState.init exampleBody) =
      (ParseCosineStream exampleBody).1 := by decide
  refine ⟨hrun, hrec, ?_⟩
  cases h : handleStreamResponse "chatcmpl-1".data 0 exampleBody "m".data
      [.produce, .recvEvent, .produce, .recvEvent, .produce, .recvEvent, .produce, .produce,
       .produce, .recvEvent] with
  | none => rw [h] at hrun; simp at hrun
  | some s =>
    have h2 := ((stream_chunks_follow_delivered_events "chatcmpl-1".data 0 "m".data
      exampleBody).1 _ s h).2.1
    rw [hrec] at h2
    exact ⟨s, rfl, h2⟩

/-! ### The scanner: lines and their length limit -/

theorem scanTokens_short (readErr : Option Str) (lines : List Str)
    (h : ∀ l ∈ lines, byteLen l < MaxScanTokenSize) :
    scanTokens readErr lines = (lines.map dropCR, readErr.map ScanError.read) := by
  induction lines with
  | nil => rfl
  | cons l ls ih =>
    have hl : ¬ MaxScanTokenSize ≤ byteLen l := by
      have := h l (List.mem_cons_self _ _)
      omega
    have ih1 := ih (fun x hx => h x (List.mem_cons_of_mem _ hx))
    simp only [scanTokens, if_neg hl, ih1, List.map_cons]

theorem scanTokens_long (readErr : Option Str) (short : List Str) (long : Str)
    (rest : List Str) (hs : ∀ l ∈ short, byteLen l < MaxScanTokenSize)
    (hl : MaxScanTokenSize ≤ byteLen long) :
    scanTokens readErr (short ++ long :: rest) = (short.map dropCR, some ScanError.tooLong) := by
  induction short with
  | nil => simp only [List.nil_append, scanTokens, if_pos hl, List.map_nil]
  | cons l ls ih =>
    have hl1 : ¬ MaxScanTokenSize ≤ byteLen l := by
      have := hs l (List.mem_cons_self _ _)
      omega
    have ih1 := ih (fun x hx => hs x (List.mem_cons_of_mem _ hx))
    rw [List.cons_append]
    simp only [scanTokens, if_neg hl1, List.map_cons]
    rw [ih1]

theorem rawLines_line (l : Str) (hl : '\n' ∉ l) (rest : Str) :
    ∀ cur : Str, rawLines cur (l ++ '\n' :: rest) = (cur.reverse ++ l) :: rawLines [] rest := by
  induction l with
  | nil =>
    intro cur
    simp [rawLines]
  | cons c l ih =>
    intro cur
    have hc : c ≠ '\n' := fun h => hl (by simp [h])
    have hl1 : '\n' ∉ l := fun h => hl (List.mem_cons_of_mem _ h)
    rw [List.cons_append, rawLines, if_neg hc, ih hl1]
    simp

theorem rawLines_last (l : Str) (hl : '\n' ∉ l) :
    ∀ cur : Str, rawLines cur l = if cur.reverse ++ l = [] then [] else [cur.reverse ++ l] := by
  induction l with
  | nil =>
    intro cur
    simp [rawLines]
  | cons c l ih =>
    intro cur
    have hc : c ≠ '\n' := fun h => hl (by simp [h])
    have hl1 : '\n' ∉ l := fun h => hl (List.mem_cons_of_mem _ h)
    rw [rawLines, if_neg hc, ih hl1]
    simp

theorem rawLines_body (ls : List Str) (last : Str) (hnl : ∀ l ∈ ls, '\n' ∉ l)
    (hlast : '\n' ∉ last) :
    rawLines [] (ls.flatMap (fun l => l ++ ['\n']) ++ last) =
      ls ++ (if last = [] then [] else [last]) := by
  induction ls with
  | nil =>
    rw [List.flatMap_nil, List.nil_append, rawLines_last last hlast []]
    simp
  | cons l ls ih =>
    have h1 := ih (fun x hx => hnl x (List.mem_cons_of_mem _ hx))
    rw [List.flatMap_cons, List.append_assoc, List.append_assoc, List.singleton_append,
      rawLines_line l (hnl l (List.mem_cons_self _ _)), h1]
    simp

theorem byteLen_replicate (n : Nat) : byteLen (List.replicate n 'a') = n := by
  induction n with
  | zero => rfl
  | succ n ih =>
    have h1 : Char.utf8Size 'a' = 1 := by decide
    simp only [byteLen] at ih
    simp only [byteLen, List.replicate_succ, List.map_cons, List.sum_cons, ih, h1]
    omega

theorem newline_not_mem_replicate (n : Nat) : '\n' ∉ List.replicate n 'a' := by
  intro h
  have := List.eq_of_mem_replicate h
  revert this
  decide

theorem lines_decomposition (data : Str) :
    ∃ (ls : List Str) (last : Str), data = ls.flatMap (fun l => l ++ ['\n']) ++ last ∧
      (∀ l ∈ ls, '\n' ∉ l) ∧ '\n' ∉ last := by
  induction data with
  | nil => exact ⟨[], [], rfl, by simp, by simp⟩
  | cons c rest ih =>
    obtain ⟨ls, last, hd, hnl, hlast⟩ := ih
    by_cases hc : c = '\n'
    · refine ⟨[] :: ls, last, ?_, ?_, hlast⟩
      · rw [hd, hc]; simp
      · intro l hl
        rcases List.mem_cons.1 hl with h | h
        · rw [h]; simp
        · exact hnl l h
    · cases ls with
      | nil =>
        refine ⟨[], c :: last, ?_, by simp, ?_⟩
        · rw [hd]; simp
        · intro h
          rcases List.mem_cons.1 h with h | h
          · exact hc h.symm
          · exact hlast h
      | cons l ls =>
        refine ⟨(c :: l) :: ls, last, ?_, ?_, hlast⟩
        · rw [hd]; simp
        · intro x hx
          rcases List.mem_cons.1 hx with h | h
          · rw [h]
            intro hm
            rcases List.mem_cons.1 hm with h1 | h1
            · exact hc h1.symm
            · exact hnl l (List.mem_cons_self _ _) h1
          · exact hnl x (List.mem_cons_of_mem _ h)

/-! ### The events `ParseCosineStream` delivers -/

theorem parseLine_no_colon (line : Str) (h : ':' ∉ line) : parseLine line = none := by
  unfold parseLine
  simp only [Index, if_neg h]
  simp

theorem parseLine_leading_colon (rest : Str) : parseLine (':' :: rest) = none := by
  unfold parseLine
  have : Index (':' :: rest) ':' = 0 := by
    simp [Index, List.indexOf_cons_self]
  simp [this]

/-- C12: `parseLine` yields an event only for a line whose text before the
first colon is not empty and trims to exactly `0`, `e` or `d`: a line
`pre:payload` whose `pre` trims to anything else yields no event, nor does a
line without colon or a line that starts with a colon; the lines `E:`, `D:`,
`2:` and `f:` with a payload that would decode yield none. -/
theorem parseLine_surfaces_only_known (line : Str) :
    (∀ ev, parseLine line = some ev →
      ∃ pre payload, line = pre ++ ':' :: payload ∧ ':' ∉ pre ∧
        (TrimSpace pre = "0".data ∨ TrimSpace pre = "e".data ∨ TrimSpace pre = "d".data)) ∧
    (∀ pre payload, line = pre ++ ':' :: payload → ':' ∉ pre →
      TrimSpace pre ≠ "0".data → TrimSpace pre ≠ "e".data → TrimSpace pre ≠ "d".data →
      parseLine line = none) ∧
    (':' ∉ line → parseLine line = none) ∧
    (line.head? = some ':' → parseLine line = none) ∧
    parseLine "E:\x7b\"finishReason\":\"stop\"\x7d".data = none ∧
    parseLine "D:\x7b\"finishReason\":\"stop\"\x7d".data = none ∧
    parseLine "2:\"hello\"".data = none ∧
    parseLine "f:\x7b\"messageId\":\"m\"\x7d".data = none ∧
    parseLine "hello".data = none ∧
    parseLine ":\"hello\"".data = none := by
  have hother : ∀ pre payload, line = pre ++ ':' :: payload → ':' ∉ pre →
      TrimSpace pre ≠ "0".data → TrimSpace pre ≠ "e".data → TrimSpace pre ≠ "d".data →
      parseLine line = none := by
    intro pre payload hl hpre h0 he hd
    subst hl
    by_cases hne : pre = []
    · subst hne
      exact parseLine_leading_colon payload
    · rw [parseLine_split pre payload hpre hne, if_neg h0, if_neg he, if_neg hd]
  refine ⟨?_, hother, parseLine_no_colon line, ?_, by decide, by decide, by decide, by decide,
    by decide, by decide⟩
  · intro ev hev
    by_cases hc : ':' ∈ line
    · obtain ⟨pre, payload, hl, hpre⟩ := List.eq_append_cons_of_mem hc
      refine ⟨pre, payload, hl, hpre, ?_⟩
      by_contra hcon
      simp only [not_or] at hcon
      rw [hother pre payload hl hpre hcon.1 hcon.2.1 hcon.2.2] at hev
      cases hev
    · rw [parseLine_no_colon line hc] at hev
      cases hev
  · intro hh
    cases line with
    | nil => simp at hh
    | cons c rest =>
      simp only [List.head?_cons, Option.some.injEq] at hh
      subst hh
      exact parseLine_leading_colon rest

/-- Witness of C12: the line `x:1` and the line ` E :"hello"`, whose text before
the colon trims to `E`, yield no event. -/
theorem parseLine_surfaces_only_known_witness :
    parseLine "x:1".data = none ∧ parseLine " E :\"hello\"".data = none :=
  ⟨(parseLine_surfaces_only_known "x:1".data).2.1 "x".data "1".data rfl (by decide) (by decide)
      (by decide) (by decide),
   (parseLine_surfaces_only_known " E :\"hello\"".data).2.1 " E ".data "\"hello\"".data rfl
      (by decide) (by decide) (by decide) (by decide)⟩

/-! ### Rotation over consecutive calls -/

theorem served_getElem (db : Database) (accounts : List Account)
    (hact : getActiveAccounts false db = .ok accounts) (hne : accounts ≠ []) (j : Nat) :
    ∃ a, accounts[((db.counter + (j + 1)) % 2 ^ 64) % accounts.length]? = some a ∧
      (GetNextAccount false (afterCalls j db)).1 = .ok a := by
  obtain ⟨i1, i2⟩ := afterCalls_state db accounts hact hne j
  have h1 := getActiveAccounts_congr false _ _ i1
  rw [hact] at h1
  obtain ⟨a, ha1, ha2⟩ := GetNextAccount_ok _ accounts h1 hne
  refine ⟨a, ?_, by rw [ha2]⟩
  have hc : ((afterCalls j db).counter + 1) % 2 ^ 64 = (db.counter + (j + 1)) % 2 ^ 64 := by
    omega
  rw [← hc]
  exact ha1

theorem mod_wrap_mod (c j N : Nat) (hj : j < N)
    (hwrap : c + N < 2 ^ 64 ∨ N ∣ 2 ^ 64) :
    ((c + (j + 1)) % 2 ^ 64) % N = (j + (c + 1) % N) % N := by
  have h2 : (j + (c + 1) % N) % N = (c + (j + 1)) % N := by
    rw [Nat.add_mod, Nat.mod_mod, ← Nat.add_mod]
    congr 1
    omega
  rw [h2]
  rcases hwrap with h | h
  · have h3 : (c + (j + 1)) % 2 ^ 64 = c + (j + 1) := Nat.mod_eq_of_lt (by omega)
    rw [h3]
  · exact Nat.mod_mod_of_dvd _ h

/-- C13 as amended: over a fixed active set of size `N >= 1`, `N` consecutive
calls of `GetNextAccount` serve the active accounts in rotation, each exactly
once, whenever the counter does not wrap during these calls
(`counter + N < 2 ^ 64`) or `N` divides `2 ^ 64`. -/
theorem consecutive_calls_serve_each_once (db : Database) (accounts : List Account)
    (hact : getActiveAccounts false db = .ok accounts) (hN : 1 ≤ accounts.length)
    (hwrap : db.counter + accounts.length < 2 ^ 64 ∨ accounts.length ∣ 2 ^ 64) :
    servedAccounts accounts.length db =
      (accounts.rotate ((db.counter + 1) % accounts.length)).map Except.ok ∧
    (servedAccounts accounts.length db).Perm (accounts.map Except.ok) := by
  have hne : accounts ≠ [] := by
    intro h0
    simp [h0] at hN
  have heq : servedAccounts accounts.length db =
      (accounts.rotate ((db.counter + 1) % accounts.length)).map Except.ok := by
    apply List.ext_getElem?
    intro j
    by_cases hj : j < accounts.length
    · obtain ⟨a, ha1, ha2⟩ := served_getElem db accounts hact hne j
      rw [mod_wrap_mod db.counter j accounts.length hj hwrap] at ha1
      simp only [servedAccounts, List.getElem?_map, List.getElem?_range hj, Option.map_some',
        List.getElem?_rotate hj, ha1, ha2]
    · have h1 : (servedAccounts accounts.length db).length ≤ j := by
        simp [servedAccounts]; omega
      have h2 : ((accounts.rotate ((db.counter + 1) % accounts.length)).map
          (Except.ok : Account → Except DBError Account)).length ≤ j := by
        simp; omega
      rw [List.getElem?_eq_none h1, List.getElem?_eq_none h2]
  refine ⟨heq, ?_⟩
  rw [heq]
  exact (List.rotate_perm accounts _).map _

/-- C13 fails as stated: with three active accounts and the counter at
`2 ^ 64 - 2`, three consecutive calls serve the first account twice and the
third account not at all. -/
theorem wrap_breaks_rotation :
    getActiveAccounts false { exampleDB with counter := 2 ^ 64 - 2 } =
      .ok [exampleAccount 1, exampleAccount 2, exampleAccount 3] ∧
    servedAccounts 3 { exampleDB with counter := 2 ^ 64 - 2 } =
      [.ok (exampleAccount 1), .ok (exampleAccount 1), .ok (exampleAccount 2)] ∧
    ¬ (servedAccounts 3 { exampleDB with counter := 2 ^ 64 - 2 }).Perm
        ([exampleAccount 1, exampleAccount 2, exampleAccount 3].map Except.ok) := by
  have hs : servedAccounts 3 { exampleDB with counter := 2 ^ 64 - 2 } =
      [.ok (exampleAccount 1), .ok (exampleAccount 1), .ok (exampleAccount 2)] := by
    rfl
  refine ⟨rfl, hs, ?_⟩
  rw [hs]
  intro hp
  have hmem : (Except.ok (exampleAccount 3) : Except DBError Account) ∈
      [Except.ok (exampleAccount 1), .ok (exampleAccount 1), .ok (exampleAccount 2)] :=
    hp.mem_iff.2 (by simp)
  simp only [List.mem_cons, Except.ok.injEq, List.mem_singleton, List.not_mem_nil,
    or_false] at hmem
  revert hmem
  decide

/-- Witness of C13 as amended: three active accounts and a fresh counter; the
calls serve the accounts 2, 3 and 1. -/
theorem consecutive_calls_serve_each_once_witness :
    getActiveAccounts false exampleDB =
      .ok [exampleAccount 1, exampleAccount 2, exampleAccount 3] ∧
    exampleDB.counter + 3 < 2 ^ 64 ∧
    servedAccounts 3 exampleDB =
      [.ok (exampleAccount 2), .ok (exampleAccount 3), .ok (exampleAccount 1)] := by
  have h := (consecutive_calls_serve_each_once exampleDB
    [exampleAccount 1, exampleAccount 2, exampleAccount 3] rfl (by decide)
    (Or.inl (by decide))).1
  refine ⟨rfl, by decide, ?_⟩
  rw [show servedAccounts 3 exampleDB = servedAccounts
    [exampleAccount 1, exampleAccount 2, exampleAccount 3].length exampleDB from rfl, h]
  rfl

/-! ### `CollectFullResponse` on a clean end -/

theorem scanTokens_exists_long (readErr : Option Str) (lines : List Str)
    (h : ∃ l ∈ lines, MaxScanTokenSize ≤ byteLen l) :
    (scanTokens readErr lines).2 = some ScanError.tooLong := by
  induction lines with
  | nil =>
    obtain ⟨l, hl, -⟩ := h
    exact absurd hl (List.not_mem_nil l)
  | cons l ls ih =>
    by_cases hl : MaxScanTokenSize ≤ byteLen l
    · simp only [scanTokens, if_pos hl]
    · simp only [scanTokens, if_neg hl]
      apply ih
      obtain ⟨x, hx, hlong⟩ := h
      rcases List.mem_cons.1 hx with rfl | hx
      · exact absurd hlong hl
      · exact ⟨x, hx, hlong⟩

theorem CollectFullResponse_of_error (reader : Reader) (err : ScanError)
    (h : (ParseCosineStream reader).2 = some err) :
    CollectFullResponse reader = ([], none, some err) := by
  simp only [CollectFullResponse, h]

/-- C8 fails as stated: a body read to a clean end whose first line is `0:"Hi"`
and whose second line has 70000 bytes before its line feed. The content event
of the first line is decoded and sent, the scanner gives up at the second line
with `ErrTooLong`, and `CollectFullResponse` returns that error with the empty
text. -/
theorem clean_end_long_line_returns_error :
    rawLines [] ("0:\"Hi\"".data ++ '\n' :: (List.replicate 70000 'a' ++ ['\n'])) =
      ["0:\"Hi\"".data, List.replicate 70000 'a'] ∧
    (ParseCosineStream
        { data := "0:\"Hi\"".data ++ '\n' :: (List.replicate 70000 'a' ++ ['\n']),
          err := none }).1 =
      [{ Kind := "content".data, Content := "Hi".data, Finish := none }] ∧
    CollectFullResponse
        { data := "0:\"Hi\"".data ++ '\n' :: (List.replicate 70000 'a' ++ ['\n']),
          err := none } =
      ([], none, some ScanError.tooLong) := by
  have h0 : rawLines [] [] = [] := rfl
  have hraw : rawLines [] ("0:\"Hi\"".data ++ '\n' :: (List.replicate 70000 'a' ++ ['\n'])) =
      ["0:\"Hi\"".data, List.replicate 70000 'a'] := by
    rw [rawLines_line _ (by decide), rawLines_line _ (newline_not_mem_replicate 70000), h0,
      List.reverse_nil, List.nil_append, List.nil_append]
  have hlong : MaxScanTokenSize ≤ byteLen (List.replicate 70000 'a') := by
    rw [byteLen_replicate]
    decide
  have hscan := scanTokens_long none ["0:\"Hi\"".data] (List.replicate 70000 'a') []
    (by decide) hlong
  have hparse : ParseCosineStream
      { data := "0:\"Hi\"".data ++ '\n' :: (List.replicate 70000 'a' ++ ['\n']),
        err := none } =
      ([{ Kind := "content".data, Content := "Hi".data, Finish := none }],
        some ScanError.tooLong) := by
    unfold ParseCosineStream Scanner
    rw [hraw]
    rw [List.singleton_append] at hscan
    rw [hscan]
    decide
  refine ⟨hraw, by rw [hparse], ?_⟩
  apply CollectFullResponse_of_error
  rw [hparse]

/-- C8 as amended: for every body read to a clean end (the body is the lines
`ls`, each followed by a line feed, and then the text `last` that has no
terminator): when no line has 65536 bytes or more, `CollectFullResponse`
returns the texts of all content events of the lines concatenated in order, the
finish of the last finish event (none when there is no finish event) and no
error; this is the value of the function, it is what the collector returns
under every schedule of the goroutine and the collector that lets it return,
and the lockstep schedule lets it return. When a line followed by a line feed
has 65536 bytes or more, or the text without terminator has more than 65536
bytes, it returns the scanner's error with the empty text and no finish event.
For the lines `0:"Hi"`, `0:" there"` and the finish line with reason `stop` the
result is `Hi there` with the finish `stop`. -/
theorem CollectFullResponse_clean (body : Reader) (ls : List Str) (last : Str)
    (hdata : body.data = ls.flatMap (fun l => l ++ ['\n']) ++ last)
    (hclean : body.err = none)
    (hnl : ∀ l ∈ ls, '\n' ∉ l) (hlast : '\n' ∉ last) :
    ((∀ l ∈ ls ++ [last], byteLen l < MaxScanTokenSize) →
      CollectFullResponse body =
        ((((lineEvents ((ls ++ (if last = [] then [] else [last])).map dropCR)).filter
            (fun e => e.Kind = "content".data)).map (fun e => e.Content)).flatten,
         (((lineEvents ((ls ++ (if last = [] then [] else [last])).map dropCR)).filter
            (fun e => e.Kind = "finish".data)).getLast?).bind (fun e => e.Finish),
         none) ∧
      (∀ schedule s r, runCollect schedule (CollectState.init body) = some s →
        s.pc = .returned r →
        r = ((((lineEvents ((ls ++ (if last = [] then [] else [last])).map dropCR)).filter
                (fun e => e.Kind = "content".data)).map (fun e => e.Content)).flatten,
             (((lineEvents ((ls ++ (if last = [] then [] else [last])).map dropCR)).filter
                (fun e => e.Kind = "finish".data)).getLast?).bind (fun e => e.Finish),
             none)) ∧
      (∃ s, runCollect
          (lockstepSchedule ((ls ++ (if last = [] then [] else [last])).map dropCR))
          (CollectState.init body) = some s ∧
        s.pc = .returned
          ((((lineEvents ((ls ++ (if last = [] then [] else [last])).map dropCR)).filter
              (fun e => e.Kind = "content".data)).map (fun e => e.Content)).flatten,
           (((lineEvents ((ls ++ (if last = [] then [] else [last])).map dropCR)).filter
              (fun e => e.Kind = "finish".data)).getLast?).bind (fun e => e.Finish),
           none))) ∧
    (((∃ l ∈ ls, MaxScanTokenSize ≤ byteLen l) ∨ MaxScanTokenSize < byteLen last) →
      CollectFullResponse body = ([], none, some ScanError.tooLong)) ∧
    CollectFullResponse
        { data := "0:\"Hi\"\n0:\" there\"\ne:\x7b\"finishReason\":\"stop\"\x7d\n".data,
          err := none } =
      ("Hi there".data, some { CosineFinishEvent.zero with FinishReason := "stop".data }, none) := by
  have hraw : rawLines [] body.data = ls ++ (if last = [] then [] else [last]) := by
    rw [hdata]
    exact rawLines_body ls last hnl hlast
  refine ⟨?_, ?_, by decide⟩
  · intro hshort
    have hshort1 : ∀ l ∈ ls ++ (if last = [] then [] else [last]),
        byteLen l < MaxScanTokenSize := by
      intro l hl
      apply hshort
      simp only [List.mem_append] at hl ⊢
      rcases hl with hl | hl
      · exact Or.inl hl
      · right
        split at hl
        · simp at hl
        · exact hl
    have hscan : Scanner body =
        ((ls ++ (if last = [] then [] else [last])).map dropCR, none) := by
      simp only [Scanner, hraw, hclean, scanTokens_short _ _ hshort1, Option.map_none']
    obtain ⟨h1, h2, h3, -⟩ := CollectFullResponse_of_scan body _ hscan
    exact ⟨h1, h2, h3⟩
  · intro hlong
    have hlong1 : ∃ l ∈ ls ++ (if last = [] then [] else [last]),
        MaxScanTokenSize ≤ byteLen l := by
      rcases hlong with ⟨l, hl, hb⟩ | hb
      · exact ⟨l, List.mem_append_left _ hl, hb⟩
      · have hne : last ≠ [] := by
          intro h0
          rw [h0] at hb
          revert hb
          decide
        refine ⟨last, ?_, Nat.le_of_lt hb⟩
        rw [if_neg hne]
        exact List.mem_append_right _ (List.mem_singleton_self _)
    have herr : (Scanner body).2 = some ScanError.tooLong := by
      simp only [Scanner, hraw]
      exact scanTokens_exists_long _ _ hlong1
    exact CollectFullResponse_of_error body _ herr

/-- Witness of C8 as amended: a body with an empty line, an ignored line, an
`e` line and a `d` line without terminator; the text is `Hi there` and the
finish is that of the `d` line. -/
theorem CollectFullResponse_clean_witness :
    CollectFullResponse
        { data := "0:\"Hi\"\r\n\n2:x\ne:\x7b\"finishReason\":\"length\"\x7d\n0:\" there\"\nd:\x7b\"finishReason\":\"stop\"\x7d".data,
          err := none } =
      ("Hi there".data, some { CosineFinishEvent.zero with FinishReason := "stop".data },
        none) := by
  have h := ((CollectFullResponse_clean
    { data := "0:\"Hi\"\r\n\n2:x\ne:\x7b\"finishReason\":\"length\"\x7d\n0:\" there\"\nd:\x7b\"finishReason\":\"stop\"\x7d".data,
      err := none }
    ["0:\"Hi\"\r".data, [], "2:x".data, "e:\x7b\"finishReason\":\"length\"\x7d".data,
      "0:\" there\"".data]
    "d:\x7b\"finishReason\":\"stop\"\x7d".data rfl rfl (by decide) (by decide)).1
      (by decide)).1
  rw [h]
  decide

/-! ### Read errors in aggregate mode -/

theorem convertMessages_map (genID clock : Nat → Str) (msgs : List OpenAIMessage) :
    ∀ i, (convertMessages genID clock i msgs).map (fun m => (m.Role, m.Content)) =
      msgs.map (fun m => (m.Role, m.Content)) := by
  induction msgs with
  | nil => intro i; rfl
  | cons m rest ih =>
    intro i
    simp only [convertMessages, List.map_cons, ih (i + 1)]

theorem retryLoop_requests (env : Env) (n : Nat) :
    ∀ (i : Nat) (db : Database) (req : CosineChatRequest) (resp : Option Response) (k : Nat)
      (att : Attempt), (retryLoop env n i db req resp).attempts[k]? = some att →
      att.request = { req with TeamID := att.account.TeamID } ∧ att.auth = att.account.Auth ∧
        att.result = env.send (i + k) att.request att.auth := by
  induction n with
  | zero =>
    intro i db req resp k att h
    simp [retryLoop] at h
  | succ n ih =>
    intro i db req resp k att h
    have hstep : ∀ (a : Account) (rest : List Attempt) (res : Option Response),
        res = env.send i { req with TeamID := a.TeamID } a.Auth →
        (∀ k att, rest[k]? = some att →
          att.request = { ({ req with TeamID := a.TeamID } : CosineChatRequest) with
              TeamID := att.account.TeamID } ∧
            att.auth = att.account.Auth ∧ att.result = env.send (i + 1 + k) att.request att.auth) →
        (({ account := a, request := { req with TeamID := a.TeamID }, auth := a.Auth,
            result := res } : Attempt) :: rest)[k]? = some att →
        att.request = { req with TeamID := att.account.TeamID } ∧ att.auth = att.account.Auth ∧
          att.result = env.send (i + k) att.request att.auth := by
      intro a rest res hres hr hk
      cases k with
      | zero =>
        simp only [List.getElem?_cons_zero, Option.some.injEq] at hk
        subst hk
        exact ⟨rfl, rfl, hres⟩
      | succ k =>
        simp only [List.getElem?_cons_succ] at hk
        obtain ⟨h1, h2, h3⟩ := hr k att hk
        refine ⟨h1, h2, ?_⟩
        rw [h3]
        congr 1
        omega
    simp only [retryLoop] at h
    split at h
    · simp at h
    · rename_i a db1 hg
      cases hs : env.send i { req with TeamID := a.TeamID } a.Auth with
      | none =>
        simp only [hs] at h
        exact hstep a _ none hs.symm (ih (i + 1) db1 _ none) h
      | some resp1 =>
        simp only [hs] at h
        split at h
        · exact hstep a _ (some resp1) hs.symm (ih (i + 1) _ _ (some resp1)) h
        · split at h
          · exact hstep a _ (some resp1) hs.symm (ih (i + 1) db1 _ (some resp1)) h
          · exact hstep a [] (some resp1) hs.symm (fun k att hk => by simp at hk) h

/-- C15: `convertToCosineRequest` returns a request with the model name of the
client request, an empty conversation identifier, the visibility `team` and a
message list of the same length whose i-th message has the role and the content
of the i-th client message; and in every upstream call of the handler the
request sent is this request with the `TeamID` of the account selected for the
call, sent with that account's credential. -/
theorem convertToCosineRequest_preserves (env : Env) (db : Database) (req : OpenAIChatRequest) :
    (convertToCosineRequest env.genID env.clock req).Model = req.Model ∧
    (convertToCosineRequest env.genID env.clock req).ID = [] ∧
    (convertToCosineRequest env.genID env.clock req).Visibility = "team".data ∧
    (convertToCosineRequest env.genID env.clock req).Messages.length = req.Messages.length ∧
    (convertToCosineRequest env.genID env.clock req).Messages.map (fun m => (m.Role, m.Content)) =
      req.Messages.map (fun m => (m.Role, m.Content)) ∧
    (∀ (i : Nat) (m : CosineMessage),
      (convertToCosineRequest env.genID env.clock req).Messages[i]? = some m →
      ∃ c, req.Messages[i]? = some c ∧ m.Role = c.Role ∧ m.Content = c.Content) ∧
    (∀ (k : Nat) (att : Attempt),
      (ChatCompletionsHandler env db (.ok req)).attempts[k]? = some att →
      att.request.TeamID = att.account.TeamID ∧
      att.request = { convertToCosineRequest env.genID env.clock req with
                      TeamID := att.account.TeamID } ∧
      att.auth = att.account.Auth ∧
      att.result = env.send k att.request att.auth) := by
  have hmap := convertMessages_map env.genID env.clock req.Messages 0
  have hlen : (convertMessages env.genID env.clock 0 req.Messages).length =
      req.Messages.length := by
    have := congrArg List.length hmap
    simpa using this
  refine ⟨rfl, rfl, rfl, hlen, hmap, ?_, ?_⟩
  · intro i m hm
    have h1 : ((convertToCosineRequest env.genID env.clock req).Messages.map
        (fun (m : CosineMessage) => (m.Role, m.Content)))[i]? = some (m.Role, m.Content) := by
      rw [List.getElem?_map, hm]; rfl
    have h2 : (req.Messages.map (fun (m : OpenAIMessage) => (m.Role, m.Content)))[i]? =
        some (m.Role, m.Content) := by
      rw [← h1]
      exact congrArg (fun l => l[i]?) hmap.symm
    rw [List.getElem?_map] at h2
    cases hc : req.Messages[i]? with
    | none => rw [hc] at h2; simp at h2
    | some c =>
      rw [hc] at h2
      simp only [Option.map_some', Option.some.injEq, Prod.mk.injEq] at h2
      exact ⟨c, rfl, h2.1.symm, h2.2.symm⟩
  · intro k att hk
    rw [(handler_fields env db req).1] at hk
    obtain ⟨h1, h2, h3⟩ := retryLoop_requests env maxRetries 0 db _ none k att hk
    rw [Nat.zero_add] at h3
    refine ⟨?_, h1, h2, h3⟩
    rw [h1]

/-- Witness of C15: the request of one message keeps its role and content, and
the first upstream call of the handler over the table of three credentials
carries the team of the account selected first. -/
theorem convertToCosineRequest_preserves_witness :
    (convertToCosineRequest rejectBadEnv.genID rejectBadEnv.clock exampleRequest).Messages.map
        (fun m => (m.Role, m.Content)) = [("user".data, "hi".data)] ∧
    (ChatCompletionsHandler rejectBadEnv failoverDB (.ok exampleRequest)).attempts[0]?.map
        (fun att => att.request.TeamID) = some "team-bad2".data := by
  have h := convertToCosineRequest_preserves rejectBadEnv failoverDB exampleRequest
  refine ⟨h.2.2.2.2.1.trans rfl, ?_⟩
  have h2 : (ChatCompletionsHandler rejectBadEnv failoverDB (.ok exampleRequest)).attempts[0]?.map
      (fun att => att.account.TeamID) = some "team-bad2".data := by decide
  cases hatt : (ChatCompletionsHandler rejectBadEnv failoverDB (.ok exampleRequest)).attempts[0]? with
  | none => rw [hatt] at h2; cases h2
  | some att =>
    have h1 := (h.2.2.2.2.2.2 0 att hatt).1
    rw [hatt] at h2
    simp only [Option.map_some', Option.some.injEq] at h2 ⊢
    rw [h1, h2]

/-! ### Failover over rejected credentials -/

theorem id_inj_of_nodup (l : List Account) (hnd : (l.map (fun a => a.ID)).Nodup) (a b : Account)
    (ha : a ∈ l) (hb : b ∈ l) (h : a.ID = b.ID) : a = b :=
  List.inj_on_of_nodup_map hnd ha hb h

theorem retryLoop_failover (env : Env) (hq : ∀ i, env.queryFails i = false)
    (he : ∀ i, env.execFails i = false) (rejected : Account → Bool) (n : Nat) :
    ∀ (i : Nat) (db : Database) (req : CosineChatRequest) (resp : Option Response),
      (db.accounts.map (fun a => a.ID)).Nodup →
      (∀ a ∈ db.accounts.filter (fun a => a.IsActive), rejected a = true →
        upstreamAnswers env a (fun s => s = 401 ∨ s = 403)) →
      (∀ a ∈ db.accounts.filter (fun a => a.IsActive), rejected a = false →
        upstreamAnswers env a (fun s => s = 200)) →
      (∃ g ∈ db.accounts.filter (fun a => a.IsActive), rejected g = false) →
      ((db.accounts.filter (fun a => a.IsActive)).filter rejected).length < n →
      (retryLoop env n i db req resp).returned = false ∧
      (∃ r, (retryLoop env n i db req resp).resp = some r ∧ r.StatusCode = 200 ∧
        ∃ att, (retryLoop env n i db req resp).attempts.getLast? = some att ∧
          att.result = some r) ∧
      (retryLoop env n i db req resp).errors = [] ∧
      (retryLoop env n i db req resp).attempts.length =
        (retryLoop env n i db req resp).deactivated.length + 1 ∧
      (retryLoop env n i db req resp).attempts.length ≤ n ∧
      (∀ x ∈ (retryLoop env n i db req resp).deactivated,
        ∃ a ∈ db.accounts.filter (fun a => a.IsActive), a.ID = x ∧ rejected a = true) := by
  induction n with
  | zero => intro i db req resp _ _ _ _ h; omega
  | succ n ih =>
    intro i db req resp hkey hrej hok hgood hfew
    obtain ⟨g, hg, hgr⟩ := hgood
    have hact : db.accounts.filter (fun a => a.IsActive) ≠ [] := List.ne_nil_of_mem hg
    obtain ⟨a, ha, hget⟩ := GetNextAccount_pick db hact
    rw [← hq i] at hget
    cases hr : rejected a with
    | false =>
      obtain ⟨resp1, hs, hst⟩ := hok a ha hr i req
      rw [retryLoop_accept env n i db _ req resp a resp1 hget hs hst]
      refine ⟨rfl, ⟨resp1, rfl, hst, _, rfl, rfl⟩, rfl, rfl, ?_, ?_⟩
      · simp
      · intro x hx; simp at hx
    | true =>
      obtain ⟨resp1, hs, hst⟩ := hrej a ha hr i req
      have hL := retryLoop_reject env n i db _ req resp a resp1 hget hs hst
      rw [he i, DeactivateAccount_ok] at hL
      have hnd := active_ids_nodup db.accounts hkey
      have hact1 : (db.accounts.map (fun b =>
          if b.ID = a.ID then { b with IsActive := false, UpdatedAt := env.now i }
          else b)).filter (fun a => a.IsActive) =
          (db.accounts.filter (fun a => a.IsActive)).filter (fun b => decide (b.ID ≠ a.ID)) :=
        active_after_deactivate _ _ _
      have hsub : ∀ b, b ∈ (db.accounts.filter (fun a => a.IsActive)).filter
          (fun b => decide (b.ID ≠ a.ID)) → b ∈ db.accounts.filter (fun a => a.IsActive) :=
        fun b hb => (List.mem_filter.1 hb).1
      have hgne : g.ID ≠ a.ID := by
        intro h
        have := id_inj_of_nodup _ hnd g a hg ha h
        rw [this, hr] at hgr
        exact Bool.noConfusion hgr
      have hcount : (((db.accounts.filter (fun a => a.IsActive)).filter
          (fun b => decide (b.ID ≠ a.ID))).filter rejected).length < n := by
        have hcomm : ((db.accounts.filter (fun a => a.IsActive)).filter
            (fun b => decide (b.ID ≠ a.ID))).filter rejected =
            ((db.accounts.filter (fun a => a.IsActive)).filter rejected).filter
              (fun b => decide (b.ID ≠ a.ID)) := by
          simp only [List.filter_filter]
          congr 1
          funext b
          cases rejected b <;> cases b.IsActive <;> simp
        have hndr : (((db.accounts.filter (fun a => a.IsActive)).filter rejected).map
            (fun a => a.ID)).Nodup := hnd.sublist ((List.filter_sublist _).map _)
        have hmem : a ∈ (db.accounts.filter (fun a => a.IsActive)).filter rejected :=
          List.mem_filter.2 ⟨ha, hr⟩
        have := length_filter_ne_id _ a hndr hmem
        rw [hcomm]
        omega
      have hrec := ih (i + 1)
        { db with
          counter := (db.counter + 1) % 2 ^ 64
          accounts := db.accounts.map (fun b =>
            if b.ID = a.ID then { b with IsActive := false, UpdatedAt := env.now i } else b) }
        { req with TeamID := a.TeamID } (some resp1)
        (by simp only [ids_after_deactivate]; exact hkey)
        (by simp only [hact1]; exact fun b hb => hrej b (hsub b hb))
        (by simp only [hact1]; exact fun b hb => hok b (hsub b hb))
        (by
          simp only [hact1]
          exact ⟨g, List.mem_filter.2 ⟨hg, by simpa using hgne⟩, hgr⟩)
        (by simp only [hact1]; exact hcount)
      obtain ⟨h1, ⟨r, h2, h2s, att, h2a, h2r⟩, h3, h4, h5, h6⟩ := hrec
      rw [hL]
      refine ⟨h1, ⟨r, h2, h2s, att, ?_, h2r⟩, h3, ?_, ?_, ?_⟩
      · simp only
        rw [List.getLast?_cons, h2a]
        rfl
      · simp only [List.length_cons]; omega
      · simp only [List.length_cons]; omega
      · intro x hx
        simp only [List.mem_cons] at hx
        rcases hx with rfl | hx
        · exact ⟨a, ha, rfl, hr⟩
        · obtain ⟨b, hb, hbx, hbr⟩ := h6 x hx
          simp only [hact1] at hb
          exact ⟨b, hsub b hb, hbx, hbr⟩

/-- C16: with a database that answers every statement and ids that are keys,
for every counter value and every table whose active accounts are each answered
either with 200 or with 401/403 by the upstream, at least one with 200 and at
most two with 401/403, the handler makes at most three upstream calls, the last
of which is answered 200, sends no error and hands that response over; every id
it passes to `DeactivateAccount` is the id of an active account that the
upstream rejects, and each call but the last one deactivates an account. -/
theorem failover_reaches_accepted_account (env : Env) (db : Database) (req : OpenAIChatRequest)
    (rejected : Account → Bool)
    (hq : ∀ i, env.queryFails i = false) (he : ∀ i, env.execFails i = false)
    (hkey : (db.accounts.map (fun a => a.ID)).Nodup)
    (hrej : ∀ a ∈ db.accounts.filter (fun a => a.IsActive), rejected a = true →
      upstreamAnswers env a (fun s => s = 401 ∨ s = 403))
    (hok : ∀ a ∈ db.accounts.filter (fun a => a.IsActive), rejected a = false →
      upstreamAnswers env a (fun s => s = 200))
    (hgood : ∃ g ∈ db.accounts.filter (fun a => a.IsActive), rejected g = false)
    (hfew : ((db.accounts.filter (fun a => a.IsActive)).filter rejected).length ≤ 2) :
    (ChatCompletionsHandler env db (.ok req)).attempts.length ≤ 3 ∧
    (ChatCompletionsHandler env db (.ok req)).attempts.length =
      (ChatCompletionsHandler env db (.ok req)).deactivated.length + 1 ∧
    (ChatCompletionsHandler env db (.ok req)).errors = [] ∧
    (∃ resp att, resp.StatusCode = 200 ∧
      (ChatCompletionsHandler env db (.ok req)).attempts.getLast? = some att ∧
      att.result = some resp ∧
      (ChatCompletionsHandler env db (.ok req)).handoff =
        some (if req.Stream then .stream resp req.Model else .nonStream resp req.Model)) ∧
    (∀ x ∈ (ChatCompletionsHandler env db (.ok req)).deactivated,
      ∃ a ∈ db.accounts.filter (fun a => a.IsActive), a.ID = x ∧ rejected a = true) := by
  obtain ⟨h1, ⟨r, h2, h2s, att, h2a, h2r⟩, h3, h4, h5, h6⟩ :=
    retryLoop_failover env hq he rejected maxRetries 0 db
      (convertToCosineRequest env.genID env.clock req) none hkey hrej hok hgood
      (Nat.lt_succ_of_le hfew)
  have hH : ChatCompletionsHandler env db (.ok req) =
      { db := (retryLoop env maxRetries 0 db
          (convertToCosineRequest env.genID env.clock req) none).db,
        attempts := (retryLoop env maxRetries 0 db
          (convertToCosineRequest env.genID env.clock req) none).attempts,
        deactivated := (retryLoop env maxRetries 0 db
          (convertToCosineRequest env.genID env.clock req) none).deactivated,
        errors := (retryLoop env maxRetries 0 db
          (convertToCosineRequest env.genID env.clock req) none).errors,
        handoff := some (if req.Stream then .stream r req.Model else .nonStream r req.Model) } := by
    simp only [ChatCompletionsHandler, h1, h2, h2s, Bool.false_eq_true, if_false, ne_eq,
      not_true_eq_false]
  rw [hH]
  exact ⟨h5, h4, h3, ⟨r, att, h2s, h2a, h2r, rfl⟩, h6⟩

/-- Witness of C16: accounts 1 and 2 hold rejected credentials and account 3 a
good one; from counter 0 the handler selects account 2, then 1, then 3. -/
theorem failover_reaches_accepted_account_witness :
    (ChatCompletionsHandler rejectBadEnv failoverDB (.ok exampleRequest)).attempts.length ≤ 3 ∧
    (ChatCompletionsHandler rejectBadEnv failoverDB (.ok exampleRequest)).deactivated = [2, 1] ∧
    (ChatCompletionsHandler rejectBadEnv failoverDB (.ok exampleRequest)).errors = [] ∧
    ((ChatCompletionsHandler rejectBadEnv failoverDB (.ok exampleRequest)).attempts.map
      (fun att => att.account.ID)) = [2, 1, 3] := by
  have h := failover_reaches_accepted_account rejectBadEnv failoverDB exampleRequest
    (fun a => decide (a.Auth ≠ "good".data)) (fun _ => rfl) (fun _ => rfl) (by decide)
    (by
      intro a _ hr i r
      have hne : a.Auth ≠ "good".data := by simpa using hr
      exact ⟨_, rfl, Or.inl (if_neg hne)⟩)
    (by
      intro a _ hr i r
      have heq : a.Auth = "good".data := by simpa using hr
      exact ⟨_, rfl, if_pos heq⟩)
    ⟨credentialAccount 3 "good".data, by decide, by decide⟩
    (by decide)
  exact ⟨h.1, by decide, h.2.2.1, by decide⟩

end Cosine
